import Mathlib

set_option maxHeartbeats 1000000

/-
  Verification of the key_value_db repository (src/lib.rs, src/paging.rs,
  src/read_write.rs, src/utils.rs) against its natural-language specification.

  Modelling conventions:
  * bytes are Nat (values < 256 in practice); machine integers are Nat/Int,
    with explicit two's-complement wrapping where the source casts;
  * the file substrate is a length (fileLen) plus a total byte function
    (fileByte); writing past end-of-file zero-fills the gap, as the OS does;
  * the page cache is a function from page index to an optional in-memory
    page image; because the source shares one Rc<RefCell<Page>> per cached
    page, an accessor mutation is modelled as updating the cache entry;
  * panics in the source (invalid block index, range overflow,
    copy_from_slice length mismatch, the "123" short-buffer panic) are
    modelled as errors of the DbError type;
  * padding bytes produced by the source's raw struct copies are modelled
    as zero;
  * loops are modelled with an explicit fuel argument so that every
    definition is executable by the kernel; fuel bounds are chosen so that
    exhaustion (DbError.Fuel) only models genuine non-termination
    (e.g. a cyclic record list in a corrupted file).
-/

/-- PAGE_SIZE from paging.rs. -/
def PAGE_SIZE : Nat := 4096

/-- BLOCK_SIZE from paging.rs. -/
def BLOCK_SIZE : Nat := 64

/-- PAGE_BLOCK_COUNT from paging.rs. -/
def PAGE_BLOCK_COUNT : Nat := 63

/-- PAGE_PAYLOAD_SIZE from paging.rs. -/
def PAGE_PAYLOAD_SIZE : Nat := BLOCK_SIZE * PAGE_BLOCK_COUNT

/-- INVALID_BLOCK_INDEX from paging.rs (= PAGE_BLOCK_COUNT as u8). -/
def INVALID_BLOCK_INDEX : Nat := 63

/-- INVALID_PAGE_INDEX from paging.rs. -/
def INVALID_PAGE_INDEX : Int := -1

/-- MAX_PAGE_COUNT from paging.rs (i32::MAX). -/
def MAX_PAGE_COUNT : Nat := 2147483647

/-- size_of::<BlockAddress>() = 8 (i32 + u8 + 3 padding bytes). -/
def BLOCK_ADDRESS_SIZE : Nat := 8

/-- BLOCK_DATA_SIZE from read_write.rs (= 64 - 8 = 56). -/
def BLOCK_DATA_SIZE : Nat := BLOCK_SIZE - BLOCK_ADDRESS_SIZE

/-- Errors; each constructor models one panic or io::Error of the source.
SliceLenMismatch is the copy_from_slice length-mismatch panic, ShortBuffer is
the panic("123") in get_to_buffer, Fuel is the modelling artefact for loops
that the source would never exit. -/
inductive DbError where
  | InvalidBlock
  | RangeOverflow
  | SliceLenMismatch
  | InvalidPage
  | NoFreeSpace
  | SkipOverflow
  | ShortBuffer
  | Fuel
  deriving DecidableEq, Repr

/-- In-memory page image (struct Page of paging.rs): a 4096-byte page is
first_free_block (1 byte), block_states (63 bytes), blocks (63*64 bytes).
block_states and blocks are byte functions (0 = Free, 1 = Busy). -/
structure Page where
  first_free_block : Nat
  block_states : Nat → Nat
  blocks : Nat → Nat

/-- Page::new from paging.rs: all blocks free, first_free_block = 0. -/
def Page.new : Page where
  first_free_block := 0
  block_states := fun _ => 0
  blocks := fun _ => 0

/-- Page::has_free_blocks from paging.rs. -/
def Page.has_free_blocks (p : Page) : Bool :=
  p.first_free_block != INVALID_BLOCK_INDEX

/-- Page::get_block_data_range from paging.rs.  Panics become errors.  Note
the source substitutes length := BLOCK_SIZE when length == 0 before the
range check; that substituted length is written out here instead of a local
binding. -/
def Page.get_block_data_range (index offset length : Nat) : Except DbError (Nat × Nat) :=
  if PAGE_BLOCK_COUNT ≤ index then .error .InvalidBlock
  else if BLOCK_SIZE < offset + (if 0 < length then length else BLOCK_SIZE) then
    .error .RangeOverflow
  else .ok (index * BLOCK_SIZE + offset, if 0 < length then length else BLOCK_SIZE)

/-- Page::get_block_data from paging.rs: the byte view described by
get_block_data_range. -/
def Page.get_block_data (p : Page) (index offset length : Nat) : Except DbError (List Nat) :=
  match Page.get_block_data_range index offset length with
  | .error e => .error e
  | .ok (start, len) => .ok ((List.range len).map fun j => p.blocks (start + j))

/-- The forward scan of Page::set_block_data (for i in index..PAGE_BLOCK_COUNT),
with fuel = PAGE_BLOCK_COUNT - index; returns the first i with state Free, or
INVALID_BLOCK_INDEX. -/
def firstFreeFromAux (states : Nat → Nat) : Nat → Nat → Nat
  | _, 0 => INVALID_BLOCK_INDEX
  | i, fuel + 1 => if states i = 0 then i else firstFreeFromAux states (i + 1) fuel

/-- Page::set_block_data from paging.rs.  Returns the updated page and the
changed flag.  The early return when the stored bytes already equal data does
not mark the block Busy.  copy_from_slice's length-mismatch panic (only
reachable when data is empty, because the length-0 overload widens the range
to a whole block) is the SliceLenMismatch error. -/
def Page.set_block_data (p : Page) (index : Nat) (data : List Nat) (offset : Nat) :
    Except DbError (Page × Bool) :=
  match Page.get_block_data_range index offset data.length with
  | .error e => .error e
  | .ok (start, len) =>
    let current := (List.range len).map fun j => p.blocks (start + j)
    if current = data then .ok (p, false)
    else if data.length ≠ len then .error .SliceLenMismatch
    else
      let blocks' := fun j => if start ≤ j ∧ j < start + len then data.getD (j - start) 0 else p.blocks j
      let states' := fun j => if j = index then 1 else p.block_states j
      if index ≠ p.first_free_block then
        .ok ({ first_free_block := p.first_free_block, block_states := states',
               blocks := blocks' }, true)
      else
        .ok ({ first_free_block := firstFreeFromAux states' index (PAGE_BLOCK_COUNT - index),
               block_states := states', blocks := blocks' }, true)

instance {ε α : Type _} [DecidableEq ε] [DecidableEq α] : DecidableEq (Except ε α) := fun a b =>
  match a, b with
  | .ok x, .ok y =>
    if h : x = y then .isTrue (by rw [h]) else .isFalse (fun he => h (Except.ok.inj he))
  | .error x, .error y =>
    if h : x = y then .isTrue (by rw [h]) else .isFalse (fun he => h (Except.error.inj he))
  | .ok _, .error _ => .isFalse (fun he => Except.noConfusion he)
  | .error _, .ok _ => .isFalse (fun he => Except.noConfusion he)

/-- Unfolding of a successful get_block_data_range: the index is valid, the
effective length applies the length-0 overload, and the range fits in the
block. -/
theorem get_block_data_range_ok {index offset length start len : Nat}
    (h : Page.get_block_data_range index offset length = .ok (start, len)) :
    index < PAGE_BLOCK_COUNT ∧ len = (if 0 < length then length else BLOCK_SIZE) ∧
    offset + len ≤ BLOCK_SIZE ∧ start = index * BLOCK_SIZE + offset := by
  unfold Page.get_block_data_range at h
  by_cases h1 : PAGE_BLOCK_COUNT ≤ index
  · rw [if_pos h1] at h
    exact absurd h (by simp)
  · rw [if_neg h1] at h
    by_cases h2 : BLOCK_SIZE < offset + (if 0 < length then length else BLOCK_SIZE)
    · rw [if_pos h2] at h
      exact absurd h (by simp)
    · rw [if_neg h2] at h
      obtain ⟨hs, hl⟩ := Prod.mk.inj (Except.ok.inj h)
      refine ⟨by omega, hl.symm, ?_, hs.symm⟩
      rw [← hl]
      omega

/-- Characterization of the forward Free scan: with fuel reaching
PAGE_BLOCK_COUNT it returns either INVALID_BLOCK_INDEX with every slot from i
on Busy, or the smallest Free slot ≥ i. -/
theorem firstFreeFromAux_spec (states : Nat → Nat) (fuel : Nat) :
    ∀ i, i + fuel = PAGE_BLOCK_COUNT →
      (firstFreeFromAux states i fuel = INVALID_BLOCK_INDEX ∧
        ∀ j, i ≤ j → j < PAGE_BLOCK_COUNT → states j ≠ 0) ∨
      (i ≤ firstFreeFromAux states i fuel ∧
        firstFreeFromAux states i fuel < PAGE_BLOCK_COUNT ∧
        states (firstFreeFromAux states i fuel) = 0 ∧
        ∀ j, i ≤ j → j < firstFreeFromAux states i fuel → states j ≠ 0) := by
  induction fuel with
  | zero =>
    intro i h
    exact Or.inl ⟨rfl, fun j hij hj => by omega⟩
  | succ n ih =>
    intro i h
    rw [firstFreeFromAux]
    by_cases hs : states i = 0
    · rw [if_pos hs]
      exact Or.inr ⟨Nat.le_refl i, by omega, hs, fun j hij hj => by omega⟩
    · rw [if_neg hs]
      rcases ih (i + 1) (by omega) with ⟨hr, hall⟩ | ⟨hle, hlt, hfree, hbusy⟩
      · refine Or.inl ⟨hr, fun j hij hj => ?_⟩
        rcases Nat.eq_or_lt_of_le hij with rfl | hlt
        · exact hs
        · exact hall j hlt hj
      · refine Or.inr ⟨by omega, hlt, hfree, fun j hij hj => ?_⟩
        rcases Nat.eq_or_lt_of_le hij with rfl | hlt2
        · exact hs
        · exact hbusy j hlt2 hj

/-- C5 counterexample: the source treats length = 0 as a whole block, not as
the block remainder: get_block_data_range 0 1 0 fails with RangeOverflow even
though offset + length = 1 ≤ BLOCK_SIZE, where the claim promises the 63-byte
remainder view and says RangeOverflow occurs iff offset + length > BLOCK_SIZE. -/
theorem c5_counterexample :
    Page.get_block_data_range 0 1 0 = .error .RangeOverflow ∧ 1 + 0 ≤ BLOCK_SIZE :=
  ⟨rfl, by decide⟩

/-- C5 (amended): get_block_data fails with InvalidBlock iff the index is out
of range; otherwise, with effective length eff = length when length > 0 and
eff = BLOCK_SIZE when length = 0, it fails with RangeOverflow iff
offset + eff > BLOCK_SIZE, and returns the eff-byte view starting at
index * BLOCK_SIZE + offset otherwise; in particular length = 0 yields the
whole-block view, which is only valid when offset = 0. -/
theorem c5_amended (p : Page) (index offset length : Nat) :
    (p.get_block_data index offset length = .error .InvalidBlock ↔ PAGE_BLOCK_COUNT ≤ index) ∧
    (p.get_block_data index offset length = .error .RangeOverflow ↔
      index < PAGE_BLOCK_COUNT ∧
        BLOCK_SIZE < offset + (if 0 < length then length else BLOCK_SIZE)) ∧
    (index < PAGE_BLOCK_COUNT →
      offset + (if 0 < length then length else BLOCK_SIZE) ≤ BLOCK_SIZE →
      p.get_block_data index offset length =
        .ok ((List.range (if 0 < length then length else BLOCK_SIZE)).map
          fun j => p.blocks (index * BLOCK_SIZE + offset + j))) := by
  unfold Page.get_block_data Page.get_block_data_range
  by_cases h1 : PAGE_BLOCK_COUNT ≤ index
  · rw [if_pos h1]
    refine ⟨by simpa using h1, ?_, fun h2 _ => by omega⟩
    constructor
    · intro he
      exact absurd (Except.error.inj he) (by simp)
    · rintro ⟨hlt, -⟩
      omega
  · rw [if_neg h1]
    by_cases h2 : BLOCK_SIZE < offset + (if 0 < length then length else BLOCK_SIZE)
    · rw [if_pos h2]
      refine ⟨?_, ?_, fun _ h3 => by omega⟩
      · constructor
        · intro he
          exact absurd (Except.error.inj he) (by simp)
        · intro hle
          omega
      · exact ⟨fun _ => ⟨by omega, h2⟩, fun _ => rfl⟩
    · rw [if_neg h2]
      refine ⟨⟨fun he => absurd he (by simp), fun hle => (h1 hle).elim⟩, ?_, fun _ _ => rfl⟩
      constructor
      · intro he
        exact absurd he (by simp)
      · rintro ⟨-, hlt⟩
        omega

/-- C5 witness: the amended characterization instantiated at a fresh page,
index 2, offset 3, length 4, with the side conditions discharged. -/
theorem c5_witness :
    Page.new.get_block_data 2 3 4 =
      .ok ((List.range (if 0 < 4 then 4 else BLOCK_SIZE)).map
        fun j => Page.new.blocks (2 * BLOCK_SIZE + 3 + j)) :=
  (c5_amended Page.new 2 3 4).2.2 (by decide) (by decide)

/-- C4 counterexample: writing bytes equal to the stored bytes returns false
and does NOT mark the block Busy: on a fresh page, set_block_data 0 [0] 0
matches the zeroed block, the page is returned unchanged with false, and
block 0 is still Free (state 0), where the claim says the block is marked
Busy by every set_block_data call. -/
theorem c4_counterexample :
    Page.new.set_block_data 0 [0] 0 = .ok (Page.new, false) ∧
    Page.new.block_states 0 = 0 :=
  ⟨rfl, rfl⟩

/-- C4 (amended): for a valid block index, nonempty data and
offset + data.length ≤ BLOCK_SIZE: when the stored bytes already equal data,
set_block_data returns false and leaves the page (including the block state
and first_free_block) wholly unchanged; otherwise it returns true, copies
data into the block at offset, marks the block Busy, leaves all other bytes
and block states unchanged, keeps first_free_block when index differs from
it, and otherwise rescans forward from index (after the marking) for the
smallest Free slot, falling back to INVALID_BLOCK_INDEX.  (Empty data always
panics in the source, because the length-0 overload widens the range to a
whole block and the byte copy's length check fails.) -/
theorem c4_amended (p : Page) (index : Nat) (data : List Nat) (offset : Nat)
    (hidx : index < PAGE_BLOCK_COUNT) (hlen : offset + data.length ≤ BLOCK_SIZE)
    (hne : data ≠ []) :
    (((List.range data.length).map fun j => p.blocks (index * BLOCK_SIZE + offset + j)) = data →
      p.set_block_data index data offset = .ok (p, false)) ∧
    (((List.range data.length).map fun j => p.blocks (index * BLOCK_SIZE + offset + j)) ≠ data →
      ∃ p', p.set_block_data index data offset = .ok (p', true) ∧
        (∀ j, j < data.length → p'.blocks (index * BLOCK_SIZE + offset + j) = data.getD j 0) ∧
        (∀ j, j < index * BLOCK_SIZE + offset ∨ index * BLOCK_SIZE + offset + data.length ≤ j →
          p'.blocks j = p.blocks j) ∧
        p'.block_states index = 1 ∧
        (∀ j, j ≠ index → p'.block_states j = p.block_states j) ∧
        (index ≠ p.first_free_block → p'.first_free_block = p.first_free_block) ∧
        (index = p.first_free_block →
          (p'.first_free_block = INVALID_BLOCK_INDEX ∧
            ∀ j, index ≤ j → j < PAGE_BLOCK_COUNT → p'.block_states j ≠ 0) ∨
          (index ≤ p'.first_free_block ∧ p'.first_free_block < PAGE_BLOCK_COUNT ∧
            p'.block_states p'.first_free_block = 0 ∧
            ∀ j, index ≤ j → j < p'.first_free_block → p'.block_states j ≠ 0))) := by
  have h0 : 0 < data.length := List.length_pos.mpr hne
  have hr : Page.get_block_data_range index offset data.length =
      .ok (index * BLOCK_SIZE + offset, data.length) := by
    unfold Page.get_block_data_range
    rw [if_neg (by omega), if_pos h0, if_neg (by omega)]
  constructor
  · intro hcur
    unfold Page.set_block_data
    rw [hr]
    simp only [hcur, if_pos rfl]
    rfl
  · intro hcur
    unfold Page.set_block_data
    rw [hr]
    simp only
    rw [if_neg hcur, if_neg (by simp)]
    by_cases hff : index ≠ p.first_free_block
    · rw [if_pos hff]
      refine ⟨_, rfl, fun j hj => ?_, fun j hj => ?_, ?_, fun j hj => ?_,
        fun _ => rfl, fun hfe => (hff hfe).elim⟩
      · dsimp only
        rw [if_pos (by omega)]
        congr 1
        omega
      · dsimp only
        rw [if_neg (by omega)]
      · dsimp only
        rw [if_pos rfl]
      · dsimp only
        rw [if_neg hj]
    · rw [if_neg hff]
      have hfe : index = p.first_free_block := not_not.mp hff
      refine ⟨_, rfl, fun j hj => ?_, fun j hj => ?_, ?_, fun j hj => ?_,
        fun hne2 => (hne2 hfe).elim, fun _ => ?_⟩
      · dsimp only
        rw [if_pos (by omega)]
        congr 1
        omega
      · dsimp only
        rw [if_neg (by omega)]
      · dsimp only
        rw [if_pos rfl]
      · dsimp only
        rw [if_neg hj]
      · exact firstFreeFromAux_spec (fun j => if j = index then 1 else p.block_states j)
          (PAGE_BLOCK_COUNT - index) index (by omega)

/-- C4 witness: the amended theorem applied to a fresh page at index 0,
data [5], offset 0, with every hypothesis discharged concretely. -/
theorem c4_witness :
    (((List.range ([5] : List Nat).length).map
        fun j => Page.new.blocks (0 * BLOCK_SIZE + 0 + j)) ≠ [5]) ∧
    (∃ p', Page.new.set_block_data 0 [5] 0 = .ok (p', true) ∧
      (∀ j, j < ([5] : List Nat).length →
        p'.blocks (0 * BLOCK_SIZE + 0 + j) = ([5] : List Nat).getD j 0) ∧
      (∀ j, j < 0 * BLOCK_SIZE + 0 ∨ 0 * BLOCK_SIZE + 0 + ([5] : List Nat).length ≤ j →
        p'.blocks j = Page.new.blocks j) ∧
      p'.block_states 0 = 1 ∧
      (∀ j, j ≠ 0 → p'.block_states j = Page.new.block_states j) ∧
      (0 ≠ Page.new.first_free_block → p'.first_free_block = Page.new.first_free_block) ∧
      (0 = Page.new.first_free_block →
        (p'.first_free_block = INVALID_BLOCK_INDEX ∧
          ∀ j, 0 ≤ j → j < PAGE_BLOCK_COUNT → p'.block_states j ≠ 0) ∨
        (0 ≤ p'.first_free_block ∧ p'.first_free_block < PAGE_BLOCK_COUNT ∧
          p'.block_states p'.first_free_block = 0 ∧
          ∀ j, 0 ≤ j → j < p'.first_free_block → p'.block_states j ≠ 0))) :=
  ⟨by decide,
   (c4_amended Page.new 0 [5] 0 (by decide) (by decide) (by decide)).2 (by decide)⟩

/-- Invariant (i) of spec section 3 for an in-memory page: first_free_block
is INVALID_BLOCK_INDEX and no block is Free, or it is the smallest index of a
Free block. -/
def PageInv (p : Page) : Prop :=
  (p.first_free_block = INVALID_BLOCK_INDEX ∧
    ∀ i, i < PAGE_BLOCK_COUNT → p.block_states i ≠ 0) ∨
  (p.first_free_block < PAGE_BLOCK_COUNT ∧ p.block_states p.first_free_block = 0 ∧
    ∀ j, j < p.first_free_block → p.block_states j ≠ 0)

/-- C7: a freshly materialized page has all blocks Free and first_free_block
= 0, and set_block_data — the only mutator of a cached page image — preserves
the invariant that first_free_block is the smallest Free index, or
INVALID_BLOCK_INDEX when no block is Free. -/
theorem c7_first_free_invariant :
    (PageInv Page.new ∧ Page.new.first_free_block = 0 ∧
      ∀ i, i < PAGE_BLOCK_COUNT → Page.new.block_states i = 0) ∧
    (∀ p index data offset p' b, PageInv p →
      p.set_block_data index data offset = .ok (p', b) → PageInv p') := by
  constructor
  · exact ⟨Or.inr ⟨by decide, rfl, fun j hj => absurd hj (Nat.not_lt_zero j)⟩,
      rfl, fun i _ => rfl⟩
  · intro p index data offset p' b hinv hset
    unfold Page.set_block_data at hset
    cases hr : Page.get_block_data_range index offset data.length with
    | error e =>
      rw [hr] at hset
      exact absurd hset (by simp)
    | ok sl =>
      obtain ⟨start, len⟩ := sl
      rw [hr] at hset
      obtain ⟨hidx, hlene, hfit, hstart⟩ := get_block_data_range_ok hr
      simp only at hset
      by_cases hcur : ((List.range len).map fun j => p.blocks (start + j)) = data
      · rw [if_pos hcur] at hset
        obtain ⟨hp, -⟩ := Prod.mk.inj (Except.ok.inj hset)
        rw [← hp]
        exact hinv
      · rw [if_neg hcur] at hset
        by_cases hdl : data.length ≠ len
        · rw [if_pos hdl] at hset
          exact absurd hset (by simp)
        · rw [if_neg hdl] at hset
          have hPB : PAGE_BLOCK_COUNT = 63 := rfl
          have hIB : INVALID_BLOCK_INDEX = 63 := rfl
          by_cases hff : index ≠ p.first_free_block
          · rw [if_pos hff] at hset
            obtain ⟨hp, -⟩ := Prod.mk.inj (Except.ok.inj hset)
            rw [← hp]
            rcases hinv with ⟨hI, hall⟩ | ⟨hlt, hfree, hbelow⟩
            · refine Or.inl ⟨hI, fun i hi => ?_⟩
              dsimp only
              by_cases hji : i = index
              · rw [if_pos hji]
                exact one_ne_zero
              · rw [if_neg hji]
                exact hall i hi
            · refine Or.inr ⟨hlt, ?_, fun j hj => ?_⟩
              · dsimp only
                rw [if_neg (fun he => hff he.symm)]
                exact hfree
              · dsimp only
                by_cases hji : j = index
                · rw [if_pos hji]
                  exact one_ne_zero
                · rw [if_neg hji]
                  exact hbelow j hj
          · rw [if_neg hff] at hset
            obtain ⟨hp, -⟩ := Prod.mk.inj (Except.ok.inj hset)
            rw [← hp]
            have hfe : index = p.first_free_block := not_not.mp hff
            have hbelowp : ∀ j, j < index → p.block_states j ≠ 0 := by
              rcases hinv with ⟨hI, -⟩ | ⟨-, -, hbelow⟩
              · omega
              · rw [hfe]
                exact hbelow
            rcases firstFreeFromAux_spec (fun j => if j = index then 1 else p.block_states j)
                (PAGE_BLOCK_COUNT - index) index (by omega) with
              ⟨hres, hall⟩ | ⟨hge, hlt2, hfree2, hbusy⟩
            · refine Or.inl ⟨hres, fun i hi => ?_⟩
              dsimp only
              rcases Nat.lt_or_ge i index with hi2 | hi2
              · rw [if_neg (by omega)]
                exact hbelowp i hi2
              · exact hall i hi2 hi
            · refine Or.inr ⟨hlt2, hfree2, fun j hj => ?_⟩
              dsimp only at hj ⊢
              rcases Nat.lt_or_ge j index with hj2 | hj2
              · rw [if_neg (by omega)]
                exact hbelowp j hj2
              · exact hbusy j hj2 hj

/-- Helper to name the page produced by a successful set_block_data in closed
statements. -/
def exceptOkPage (e : Except DbError (Page × Bool)) : Page :=
  match e with
  | .ok (p, _) => p
  | .error _ => Page.new

/-- C7 witness: the preservation part applied to a concrete write on a fresh
page, with the invariant hypothesis discharged concretely. -/
theorem c7_witness :
    PageInv (exceptOkPage (Page.new.set_block_data 0 [5] 0)) := by
  have hinv : PageInv Page.new :=
    Or.inr ⟨by decide, rfl, fun j hj => absurd hj (Nat.not_lt_zero j)⟩
  have h : Page.new.set_block_data 0 [5] 0 =
      .ok (exceptOkPage (Page.new.set_block_data 0 [5] 0), true) := rfl
  exact c7_first_free_invariant.2 Page.new 0 [5] 0 _ true hinv h

/-- BlockAddress from paging.rs: a (page_index: i32, block_index: u8) pair. -/
structure BlockAddress where
  page_index : Int
  block_index : Nat
  deriving DecidableEq, Repr

/-- BlockAddress::invalid. -/
def BlockAddress.invalid : BlockAddress where
  page_index := INVALID_PAGE_INDEX
  block_index := INVALID_BLOCK_INDEX

/-- BlockAddress::new. -/
def BlockAddress.new (page_index : Int) (block_index : Nat) : BlockAddress where
  page_index := page_index
  block_index := block_index

/-- Combined state of Database, PageManagerImpl and the file (lib.rs and
paging.rs): page cache, file contents (length plus byte function; bytes at
positions at/after fileLen read as 0), the in-memory PagesHeader value and
the in-memory DbSystemInfo.  The manager's header offset is the one lib.rs
passes: DbSystemInfo::size_in_buffer() = 16; pages start at offset 20. -/
structure DbState where
  cached : Nat → Option Page
  fileLen : Nat
  fileByte : Nat → Nat
  first_page_with_free_blocks : Nat
  first_record : BlockAddress
  last_record : BlockAddress

/-- Offset of the PagesHeader (= size of DbSystemInfo). -/
def HEADER_OFFSET : Nat := 16

/-- first_page_offset of PageManagerImpl (= HEADER_OFFSET + size of
PagesHeader). -/
def FIRST_PAGE_OFFSET : Nat := 20

/-- PageManagerImpl::get_page_address. -/
def pageAddress (index : Nat) : Nat := FIRST_PAGE_OFFSET + index * PAGE_SIZE

/-- Decoding a page image from its on-disk bytes (the raw struct copy of
ReadableWritable::read for struct Page: first_free_block at byte 0,
block_states at bytes 1..64, blocks at bytes 64..4096). -/
def pageFromFile (st : DbState) (index : Nat) : Page where
  first_free_block := st.fileByte (pageAddress index)
  block_states := fun j => st.fileByte (pageAddress index + 1 + j)
  blocks := fun j => st.fileByte (pageAddress index + BLOCK_SIZE + j)

/-- The page image PageManagerImpl::get_page builds for an uncached index:
decoded from the file when the page begins before end-of-file, else a fresh
all-free page. -/
def loadPage (st : DbState) (index : Nat) : Page :=
  if st.fileLen ≤ pageAddress index then Page.new else pageFromFile st index

/-- Cache update: the source's HashMap::insert, and also a mutation through
the shared Rc<RefCell<Page>> of an accessor. -/
def cacheSet (st : DbState) (index : Nat) (p : Page) : DbState :=
  { st with cached := fun j => if j = index then some p else st.cached j }

/-- PageManagerImpl::get_page: panic on an out-of-range index becomes
InvalidPage, otherwise the cached image, or load-and-cache on a miss. -/
def get_page (st : DbState) (index : Int) : Except DbError (Page × DbState) :=
  if index < 0 ∨ (MAX_PAGE_COUNT : Int) ≤ index then .error .InvalidPage
  else
    match st.cached index.toNat with
    | some p => .ok (p, st)
    | none => .ok (loadPage st index.toNat, cacheSet st index.toNat (loadPage st index.toNat))

/-- The effective page at an index: the cached image when present, else what
a load would produce.  A successful get_page always returns exactly this. -/
def pageAt (st : DbState) (index : Nat) : Page :=
  (st.cached index).getD (loadPage st index)

/-- Loop body of PageManagerImpl::find_page_with_free_blocks, fuel-indexed
over the remaining indices of start..MAX_PAGE_COUNT.  Note the source has no
else between the three probes: a cached page that is full in memory still
falls through to the end-of-file probe and the on-disk byte probe. -/
def findLoop (st : DbState) : Nat → Nat → Except DbError Nat
  | _, 0 => .error .NoFreeSpace
  | index, fuel + 1 =>
    if (match st.cached index with | some p => p.has_free_blocks | none => false) then .ok index
    else if st.fileLen ≤ pageAddress index then .ok index
    else if st.fileByte (pageAddress index) ≠ INVALID_BLOCK_INDEX then .ok index
    else findLoop st (index + 1) fuel

/-- PageManagerImpl::find_page_with_free_blocks (for index in
start..MAX_PAGE_COUNT). -/
def find_page_with_free_blocks (st : DbState) (start : Nat) : Except DbError Nat :=
  findLoop st start (MAX_PAGE_COUNT - start)

/-- The per-index acceptance test of the source's free-page search: cached
and free in memory, or starting at/after end-of-file, or the on-disk
first_free_block byte differs from INVALID_BLOCK_INDEX. -/
def findTest (st : DbState) (index : Nat) : Bool :=
  (match st.cached index with | some p => p.has_free_blocks | none => false) ||
  decide (st.fileLen ≤ pageAddress index) ||
  decide (st.fileByte (pageAddress index) ≠ INVALID_BLOCK_INDEX)

/-- One step of findLoop is the findTest check. -/
theorem findLoop_step (st : DbState) (index fuel : Nat) :
    findLoop st index (fuel + 1) =
      if findTest st index = true then .ok index else findLoop st (index + 1) fuel := by
  rw [findLoop]
  unfold findTest
  by_cases h1 : (match st.cached index with | some p => p.has_free_blocks | none => false) = true
  · simp [h1]
  · by_cases h2 : st.fileLen ≤ pageAddress index
    · simp [h1, h2]
    · by_cases h3 : st.fileByte (pageAddress index) ≠ INVALID_BLOCK_INDEX
      · simp [h1, h2, h3]
      · simp [h1, h2, h3]

/-- Characterization of findLoop: success returns the least index in the
fuel window passing findTest; NoFreeSpace means no index in the window
passes. -/
theorem findLoop_char (st : DbState) (fuel : Nat) :
    ∀ index,
      (∀ i, findLoop st index fuel = .ok i ↔
        index ≤ i ∧ i < index + fuel ∧ findTest st i = true ∧
        ∀ j, index ≤ j → j < i → findTest st j = false) ∧
      (findLoop st index fuel = .error .NoFreeSpace ↔
        ∀ j, index ≤ j → j < index + fuel → findTest st j = false) := by
  induction fuel with
  | zero =>
    intro index
    constructor
    · intro i
      constructor
      · intro h
        exact absurd h (by simp [findLoop])
      · rintro ⟨h1, hlt, -, -⟩
        exact absurd hlt (by omega)
    · constructor
      · intro _ j h1 h2
        exact absurd h2 (by omega)
      · intro _
        rfl
  | succ n ih =>
    intro index
    rw [findLoop_step]
    by_cases ht : findTest st index = true
    · rw [if_pos ht]
      constructor
      · intro i
        constructor
        · intro h
          have hi : index = i := Except.ok.inj h
          exact ⟨by omega, by omega, hi ▸ ht, fun j h1 h2 => by omega⟩
        · rintro ⟨h1, -, -, hmin⟩
          rcases Nat.eq_or_lt_of_le h1 with rfl | hlt
          · rfl
          · exact absurd ht (by simp [hmin index (Nat.le_refl index) hlt])
      · constructor
        · intro h
          exact absurd h (by simp)
        · intro hall
          exact absurd ht (by simp [hall index (Nat.le_refl index) (by omega)])
    · rw [if_neg ht]
      have htf : findTest st index = false := Bool.not_eq_true _ ▸ ht
      constructor
      · intro i
        rw [((ih (index + 1)).1 i)]
        constructor
        · rintro ⟨h1, h2, h3, hmin⟩
          refine ⟨by omega, by omega, h3, fun j hj1 hj2 => ?_⟩
          rcases Nat.eq_or_lt_of_le hj1 with rfl | hlt
          · exact htf
          · exact hmin j hlt hj2
        · rintro ⟨h1, h2, h3, hmin⟩
          have hne : index ≠ i := by
            intro he
            rw [← he] at h3
            exact absurd h3 (by simp [htf])
          exact ⟨by omega, by omega, h3, fun j hj1 hj2 => hmin j (by omega) hj2⟩
      · rw [(ih (index + 1)).2]
        constructor
        · intro hall j hj1 hj2
          rcases Nat.eq_or_lt_of_le hj1 with rfl | hlt
          · exact htf
          · exact hall j hlt (by omega)
        · intro hall j hj1 hj2
          exact hall j (by omega) (by omega)

/-- An in-memory page image with no free block. -/
def fullPage : Page where
  first_free_block := INVALID_BLOCK_INDEX
  block_states := fun _ => 1
  blocks := fun _ => 0

/-- A state whose page 0 is cached and full while the file holds no pages:
every page begins at/after end-of-file. -/
def exC6St : DbState where
  cached := fun j => if j = 0 then some fullPage else none
  fileLen := HEADER_OFFSET
  fileByte := fun _ => 0
  first_page_with_free_blocks := 0
  first_record := BlockAddress.invalid
  last_record := BlockAddress.invalid

/-- C6 counterexample: a cached page whose in-memory image is full IS
returned by find_page_with_free_blocks: in exC6St page 0 is cached and full,
yet the search returns 0 (through the end-of-file probe), where the claim
says a cached full page is never returned (the claim's reading would return
1 here). -/
theorem c6_counterexample :
    find_page_with_free_blocks exC6St 0 = .ok 0 ∧
    exC6St.cached 0 = some fullPage ∧
    fullPage.has_free_blocks = false := by
  refine ⟨?_, rfl, rfl⟩
  rfl

/-- C6 (amended): find_page_with_free_blocks(start) returns the smallest
index i ≥ start (below MAX_PAGE_COUNT) passing the source's per-index probe
— cached and free in memory, OR file offset at/after end-of-file, OR on-disk
first_free_block byte ≠ INVALID_BLOCK_INDEX — and fails with NoFreeSpace iff
no index in start..MAX_PAGE_COUNT passes.  A cached page whose in-memory
image is full is NOT skipped outright: the end-of-file and on-disk probes
still apply to it, because the source lacks an else between the probes. -/
theorem c6_amended (st : DbState) (start : Nat) :
    (∀ i, find_page_with_free_blocks st start = .ok i ↔
      start ≤ i ∧ i < MAX_PAGE_COUNT ∧ findTest st i = true ∧
      ∀ j, start ≤ j → j < i → findTest st j = false) ∧
    (find_page_with_free_blocks st start = .error .NoFreeSpace ↔
      ∀ j, start ≤ j → j < MAX_PAGE_COUNT → findTest st j = false) := by
  unfold find_page_with_free_blocks
  have h := findLoop_char st (MAX_PAGE_COUNT - start) start
  rcases Nat.le_total start MAX_PAGE_COUNT with hle | hle
  · have hb : start + (MAX_PAGE_COUNT - start) = MAX_PAGE_COUNT := by omega
    rw [hb] at h
    exact h
  · have hb : MAX_PAGE_COUNT - start = 0 := by omega
    rw [hb]
    constructor
    · intro i
      constructor
      · intro hok
        exact absurd hok (by simp [findLoop])
      · rintro ⟨h1, h2, -, -⟩
        exact absurd h2 (by omega)
    · constructor
      · intro _ j hj1 hj2
        exact absurd hj2 (by omega)
      · intro _
        rfl

/-- C6 witness: the amended characterization applied at exC6St with start 0,
showing the returned index 0 passes the probe with an empty minimality
window. -/
theorem c6_witness : find_page_with_free_blocks exC6St 0 = .ok 0 :=
  ((c6_amended exC6St 0).1 0).mpr
    ⟨Nat.le_refl 0, by decide, by decide, fun j h1 h2 => absurd h2 (by omega)⟩

/-- Serialization of a page image for commit_page's file write (the raw
struct copy layout of struct Page). -/
def pageToByte (p : Page) (j : Nat) : Nat :=
  if j = 0 then p.first_free_block
  else if j < BLOCK_SIZE then p.block_states (j - 1)
  else p.blocks (j - BLOCK_SIZE)

/-- The file write of commit_page: PAGE_SIZE bytes at the page address; when
the write extends the file, the gap between the old end-of-file and the
write is zero-filled. -/
def writePageToFile (st : DbState) (index : Nat) (p : Page) : DbState :=
  { st with
    fileLen := max st.fileLen (pageAddress index + PAGE_SIZE),
    fileByte := fun pos =>
      if pageAddress index ≤ pos ∧ pos < pageAddress index + PAGE_SIZE then
        pageToByte p (pos - pageAddress index)
      else if pos < st.fileLen then st.fileByte pos
      else 0 }

/-- Little-endian byte k of a natural value (for the 4-byte header write). -/
def natLeByte (v k : Nat) : Nat := v / 256 ^ k % 256

/-- PageManagerImpl::update_first_page_with_free_blocks: set the in-memory
header and persist its 4 bytes at HEADER_OFFSET. -/
def update_first_page_with_free_blocks (st : DbState) (index : Nat) : DbState :=
  { st with
    first_page_with_free_blocks := index,
    fileLen := max st.fileLen (HEADER_OFFSET + 4),
    fileByte := fun pos =>
      if HEADER_OFFSET ≤ pos ∧ pos < HEADER_OFFSET + 4 then natLeByte index (pos - HEADER_OFFSET)
      else if pos < st.fileLen then st.fileByte pos
      else 0 }

/-- PageManagerImpl::commit_page: write the page image to the file, then
maintain first_page_with_free_blocks: search forward from index + 1 when the
committed page is the header's page and is now full; lower the header to
index when the page has free blocks and index is smaller; else leave it. -/
def commit_page (st : DbState) (index : Nat) (p : Page) : Except DbError DbState :=
  let st1 := writePageToFile st index p
  if index = st1.first_page_with_free_blocks ∧ p.has_free_blocks = false then
    match find_page_with_free_blocks st1 (index + 1) with
    | .error e => .error e
    | .ok j => .ok (update_first_page_with_free_blocks st1 j)
  else if p.has_free_blocks = true ∧ index < st1.first_page_with_free_blocks then
    .ok (update_first_page_with_free_blocks st1 index)
  else .ok st1

/-- Whether the page at an index currently has a free block, in the sense of
the spec's header invariant: judged from the cached image when cached, else a
page at/after end-of-file is virgin (free), else judged from the persisted
first_free_block byte. -/
def pageHasFree (st : DbState) (index : Nat) : Prop :=
  match st.cached index with
  | some p => p.has_free_blocks = true
  | none => st.fileLen ≤ pageAddress index ∨ st.fileByte (pageAddress index) ≠ INVALID_BLOCK_INDEX

/-- Page addresses of distinct pages are at least PAGE_SIZE apart, so a page
write never touches another page's first byte. -/
theorem pageAddress_disjoint {i index : Nat} (h : i ≠ index) :
    ¬(pageAddress index ≤ pageAddress i ∧ pageAddress i < pageAddress index + PAGE_SIZE) := by
  have h1 : pageAddress i = 20 + i * 4096 := rfl
  have h2 : pageAddress index = 20 + index * 4096 := rfl
  have h3 : PAGE_SIZE = 4096 := rfl
  omega

/-- Committing the cached page image does not change which pages have free
blocks. -/
theorem pageHasFree_writePageToFile (st : DbState) (index : Nat) (p : Page)
    (hcache : st.cached index = some p) :
    ∀ i, pageHasFree (writePageToFile st index p) i ↔ pageHasFree st i := by
  intro i
  unfold pageHasFree writePageToFile
  simp only
  cases hc : st.cached i with
  | some q => simp
  | none =>
    have hne : i ≠ index := by
      intro he
      rw [he, hcache] at hc
      exact Option.noConfusion hc
    rw [if_neg (pageAddress_disjoint hne)]
    have h1 : pageAddress i = 20 + i * 4096 := rfl
    by_cases hv : st.fileLen ≤ pageAddress i
    · rw [if_neg (by omega)]
      constructor
      · intro _
        exact Or.inl hv
      · intro _
        have hz : (0 : Nat) ≠ INVALID_BLOCK_INDEX := by decide
        exact Or.inr hz
    · rw [if_pos (by omega)]
      have hmax : ¬(max st.fileLen (pageAddress index + PAGE_SIZE) ≤ pageAddress i) := by
        have := Nat.le_max_left st.fileLen (pageAddress index + PAGE_SIZE)
        omega
      constructor
      · rintro (hl | hb)
        · exact absurd hl hmax
        · exact Or.inr hb
      · rintro (hl | hb)
        · exact absurd hl hv
        · exact Or.inr hb

/-- Persisting the header does not change which pages have free blocks. -/
theorem pageHasFree_updateFirst (st : DbState) (k : Nat) :
    ∀ i, pageHasFree (update_first_page_with_free_blocks st k) i ↔ pageHasFree st i := by
  intro i
  unfold pageHasFree update_first_page_with_free_blocks
  simp only
  cases hc : st.cached i with
  | some q => simp
  | none =>
    have h1 : pageAddress i = 20 + i * 4096 := rfl
    have h2 : HEADER_OFFSET = 16 := rfl
    rw [if_neg (by omega)]
    by_cases hv : st.fileLen ≤ pageAddress i
    · rw [if_neg (by omega)]
      constructor
      · intro _
        exact Or.inl hv
      · intro _
        have hz : (0 : Nat) ≠ INVALID_BLOCK_INDEX := by decide
        exact Or.inr hz
    · rw [if_pos (by omega)]
      have hmax : ¬(max st.fileLen (HEADER_OFFSET + 4) ≤ pageAddress i) := by
        have := Nat.le_max_left st.fileLen (HEADER_OFFSET + 4)
        omega
      constructor
      · rintro (hl | hb)
        · exact absurd hl hmax
        · exact Or.inr hb
      · rintro (hl | hb)
        · exact absurd hl hv
        · exact Or.inr hb

/-- A page with a free block passes the free-page search probe. -/
theorem findTest_of_pageHasFree (st : DbState) (i : Nat) (h : pageHasFree st i) :
    findTest st i = true := by
  unfold pageHasFree at h
  unfold findTest
  cases hc : st.cached i with
  | some q =>
    rw [hc] at h
    simp [h]
  | none =>
    rw [hc] at h
    rcases h with hl | hb
    · simp [hl]
    · simp [hb]

/-- The page write does not change the in-memory header value. -/
theorem writePageToFile_first_page (st : DbState) (index : Nat) (p : Page) :
    (writePageToFile st index p).first_page_with_free_blocks =
      st.first_page_with_free_blocks := rfl

/-- update_first_page_with_free_blocks sets the in-memory header value. -/
theorem updateFirst_first_page (st : DbState) (k : Nat) :
    (update_first_page_with_free_blocks st k).first_page_with_free_blocks = k := rfl

/-- The free/busy status of the committed page, as seen through pageHasFree,
is its cached image's status. -/
theorem pageHasFree_cached (st : DbState) (index : Nat) (p : Page)
    (hcache : st.cached index = some p) :
    pageHasFree st index ↔ p.has_free_blocks = true := by
  unfold pageHasFree
  rw [hcache]

/-- C8: provided first_page_with_free_blocks was a lower bound of all pages
with free blocks and the committed page is the cached image, commit_page
preserves the lower bound; and it maintains the header exactly as claimed:
searching forward from index + 1 when the committed page is the header's
page and is now full, lowering the header to index when the page has free
blocks and index is smaller, and leaving the header (and the rest of the
state beyond the page write) untouched otherwise. -/
theorem c8_commit_page_header (st : DbState) (index : Nat) (p : Page) (st' : DbState)
    (hcache : st.cached index = some p)
    (hpre : ∀ i, pageHasFree st i → st.first_page_with_free_blocks ≤ i)
    (hcommit : commit_page st index p = .ok st') :
    (∀ i, pageHasFree st' i → st'.first_page_with_free_blocks ≤ i) ∧
    (index = st.first_page_with_free_blocks ∧ p.has_free_blocks = false →
      find_page_with_free_blocks (writePageToFile st index p) (index + 1) =
        .ok st'.first_page_with_free_blocks) ∧
    (¬(index = st.first_page_with_free_blocks ∧ p.has_free_blocks = false) →
      p.has_free_blocks = true ∧ index < st.first_page_with_free_blocks →
      st'.first_page_with_free_blocks = index) ∧
    (¬(index = st.first_page_with_free_blocks ∧ p.has_free_blocks = false) →
      ¬(p.has_free_blocks = true ∧ index < st.first_page_with_free_blocks) →
      st' = writePageToFile st index p ∧
      st'.first_page_with_free_blocks = st.first_page_with_free_blocks) := by
  simp only [commit_page, writePageToFile_first_page] at hcommit
  by_cases hA : index = st.first_page_with_free_blocks ∧ p.has_free_blocks = false
  · rw [if_pos hA] at hcommit
    cases hfind : find_page_with_free_blocks (writePageToFile st index p) (index + 1) with
    | error e =>
      rw [hfind] at hcommit
      exact absurd hcommit (by simp)
    | ok j =>
      rw [hfind] at hcommit
      have hst' : update_first_page_with_free_blocks (writePageToFile st index p) j = st' :=
        Except.ok.inj hcommit
      subst hst'
      have hchar := (findLoop_char (writePageToFile st index p)
        (MAX_PAGE_COUNT - (index + 1)) (index + 1)).1 j
      unfold find_page_with_free_blocks at hfind
      obtain ⟨hj1, hj2, hj3, hmin⟩ := hchar.mp hfind
      refine ⟨?_, fun _ => by rw [updateFirst_first_page], fun hnA => (hnA hA).elim,
        fun hnA => (hnA hA).elim⟩
      intro i hfree'
      rw [updateFirst_first_page]
      have hfree1 : pageHasFree (writePageToFile st index p) i :=
        (pageHasFree_updateFirst (writePageToFile st index p) j i).mp hfree'
      have hfree0 : pageHasFree st i :=
        (pageHasFree_writePageToFile st index p hcache i).mp hfree1
      have hge : index + 1 ≤ i := by
        rcases Nat.lt_or_ge i (index + 1) with hlt | hge
        · exfalso
          rcases Nat.lt_or_ge i index with hlt2 | hge2
          · have := hpre i hfree0
            omega
          · have hieq : i = index := by omega
            rw [hieq] at hfree0
            rw [pageHasFree_cached st index p hcache] at hfree0
            rw [hfree0] at hA
            exact Bool.noConfusion hA.2
        · exact hge
      rcases Nat.lt_or_ge i j with hlt | hge2
      · exact absurd (findTest_of_pageHasFree _ i hfree1) (by simp [hmin i hge hlt])
      · exact hge2
  · rw [if_neg hA] at hcommit
    by_cases hB : p.has_free_blocks = true ∧ index < st.first_page_with_free_blocks
    · rw [if_pos hB] at hcommit
      have hst' : update_first_page_with_free_blocks (writePageToFile st index p) index = st' :=
        Except.ok.inj hcommit
      subst hst'
      refine ⟨?_, fun hA2 => (hA hA2).elim, fun _ _ => updateFirst_first_page _ _,
        fun _ hnB => (hnB hB).elim⟩
      intro i hfree'
      rw [updateFirst_first_page]
      have hfree1 : pageHasFree (writePageToFile st index p) i :=
        (pageHasFree_updateFirst (writePageToFile st index p) index i).mp hfree'
      have hfree0 : pageHasFree st i :=
        (pageHasFree_writePageToFile st index p hcache i).mp hfree1
      have := hpre i hfree0
      omega
    · rw [if_neg hB] at hcommit
      have hst' : writePageToFile st index p = st' := Except.ok.inj hcommit
      subst hst'
      refine ⟨?_, fun hA2 => (hA hA2).elim, fun _ hB2 => (hB hB2).elim, fun _ _ => ⟨rfl, rfl⟩⟩
      intro i hfree'
      have hfree0 : pageHasFree st i :=
        (pageHasFree_writePageToFile st index p hcache i).mp hfree'
      rw [writePageToFile_first_page]
      exact hpre i hfree0

/-- A page image with block 0 busy and first_free_block 1. -/
def exC8Page : Page where
  first_free_block := 1
  block_states := fun j => if j = 0 then 1 else 0
  blocks := fun _ => 0

/-- A state caching exC8Page at page 0, with header 0 and no pages in the
file. -/
def exC8St : DbState where
  cached := fun j => if j = 0 then some exC8Page else none
  fileLen := HEADER_OFFSET
  fileByte := fun _ => 0
  first_page_with_free_blocks := 0
  first_record := BlockAddress.invalid
  last_record := BlockAddress.invalid

/-- C8 witness: committing the (still free) page 0 when the header is
already 0 leaves the header untouched; all hypotheses of the C8 theorem are
discharged at this concrete state. -/
theorem c8_witness :
    commit_page exC8St 0 exC8Page = .ok (writePageToFile exC8St 0 exC8Page) ∧
    (writePageToFile exC8St 0 exC8Page).first_page_with_free_blocks =
      exC8St.first_page_with_free_blocks :=
  ⟨rfl,
   ((c8_commit_page_header exC8St 0 exC8Page (writePageToFile exC8St 0 exC8Page)
      rfl (fun i _ => Nat.zero_le i) rfl).2.2.2 (by decide) (by decide)).2⟩

/-- Little-endian 4 bytes of an i32 (two's complement wrap). -/
def i32ToLeBytes (v : Int) : List Nat :=
  [(v % 4294967296).toNat % 256,
   (v % 4294967296).toNat / 256 % 256,
   (v % 4294967296).toNat / 65536 % 256,
   (v % 4294967296).toNat / 16777216 % 256]

/-- The 8 on-disk bytes of a BlockAddress produced by the raw struct copy:
page_index little-endian, block_index, then three padding bytes (modelled as
zero). -/
def encodeAddr (a : BlockAddress) : List Nat :=
  i32ToLeBytes a.page_index ++ [a.block_index % 256, 0, 0, 0]

/-- Reading an i32 back from 4 little-endian bytes (two's complement). -/
def decodeI32 (b0 b1 b2 b3 : Nat) : Int :=
  if b0 + 256 * b1 + 65536 * b2 + 16777216 * b3 < 2147483648 then
    (b0 + 256 * b1 + 65536 * b2 + 16777216 * b3 : Int)
  else (b0 + 256 * b1 + 65536 * b2 + 16777216 * b3 : Int) - 4294967296

/-- Reading a BlockAddress back from its 8 on-disk bytes (the raw struct
read ignores the padding bytes). -/
def decodeAddr (bs : List Nat) : BlockAddress where
  page_index := decodeI32 (bs.getD 0 0) (bs.getD 1 0) (bs.getD 2 0) (bs.getD 3 0)
  block_index := bs.getD 4 0

/-- Cursor state of a PageReader (read_write.rs): the page index of the
current accessor, the current block index and the offset within that block's
payload. -/
structure PageReaderS where
  pi : Nat
  block_index : Nat
  block_offset : Nat
  deriving DecidableEq, Repr

/-- PageReader::copy_block: read len bytes of the current block at
block_offset through the accessor's page and advance block_offset. -/
def copyBlock (st : DbState) (r : PageReaderS) (len : Nat) :
    Except DbError (List Nat × PageReaderS) :=
  match (pageAt st r.pi).get_block_data r.block_index r.block_offset len with
  | .error e => .error e
  | .ok bs => .ok (bs, { r with block_offset := r.block_offset + len })

/-- get_next_block_address + PageReader::go_to_next_block: read the current
block's successor pointer; at the chain tail return false; otherwise move to
the successor block, acquiring its page when it lies on another page. -/
def goToNextBlock (st : DbState) (r : PageReaderS) :
    Except DbError (Bool × PageReaderS × DbState) :=
  match (pageAt st r.pi).get_block_data r.block_index BLOCK_DATA_SIZE BLOCK_ADDRESS_SIZE with
  | .error e => .error e
  | .ok bs =>
    if decodeAddr bs = BlockAddress.invalid then .ok (false, r, st)
    else if (decodeAddr bs).page_index ≠ (r.pi : Int) then
      match get_page st (decodeAddr bs).page_index with
      | .error e => .error e
      | .ok (_, st') =>
        .ok (true, { pi := (decodeAddr bs).page_index.toNat,
                     block_index := (decodeAddr bs).block_index, block_offset := 0 }, st')
    else
      .ok (true, { r with block_index := (decodeAddr bs).block_index, block_offset := 0 }, st)

/-- Loop of PageReader::read for a count-byte request, with fuel; returns the
bytes copied into the caller's buffer.  Mirrors the source: a request that
fits the current block's remaining payload is copied directly; otherwise the
remainder of the block is copied, the reader advances (stopping with a short
result at the chain tail) and continues. -/
def readLoop : Nat → DbState → PageReaderS → Nat →
    Except DbError (List Nat × PageReaderS × DbState)
  | 0, _, _, _ => .error .Fuel
  | fuel + 1, st, r, count =>
    if count = 0 then .ok ([], r, st)
    else if count ≤ BLOCK_DATA_SIZE - r.block_offset then
      match copyBlock st r count with
      | .error e => .error e
      | .ok (bs, r') => .ok (bs, r', st)
    else
      match copyBlock st r (BLOCK_DATA_SIZE - r.block_offset) with
      | .error e => .error e
      | .ok (bs, r') =>
        match goToNextBlock st r' with
        | .error e => .error e
        | .ok (false, r2, st') => .ok (bs, r2, st')
        | .ok (true, r2, st') =>
          match readLoop fuel st' r2 (count - (BLOCK_DATA_SIZE - r.block_offset)) with
          | .error e => .error e
          | .ok (bs2, r3, st2) => .ok (bs ++ bs2, r3, st2)

/-- PageReader::read of a count-byte request (fuel count + 1 always
suffices: every iteration past the first consumes a full block's payload). -/
def readS (st : DbState) (r : PageReaderS) (count : Nat) :
    Except DbError (List Nat × PageReaderS × DbState) :=
  readLoop (count + 1) st r count

/-- Loop of PageReader::skip, with fuel. -/
def skipLoop : Nat → DbState → PageReaderS → Nat → Except DbError (PageReaderS × DbState)
  | 0, _, _, _ => .error .Fuel
  | fuel + 1, st, r, skip =>
    if skip ≤ BLOCK_DATA_SIZE - r.block_offset then
      .ok ({ r with block_offset := r.block_offset + skip }, st)
    else
      match goToNextBlock st r with
      | .error e => .error e
      | .ok (false, _, _) => .error .SkipOverflow
      | .ok (true, r', st') => skipLoop fuel st' r' (skip - (BLOCK_DATA_SIZE - r.block_offset))

/-- PageReader::skip (fuel skip + 2 always suffices: the first iteration may
make no progress when the cursor sits at a block boundary, every later one
consumes a full block's payload). -/
def skipS (st : DbState) (r : PageReaderS) (skip : Nat) : Except DbError (PageReaderS × DbState) :=
  skipLoop (skip + 2) st r skip

/-- Read::read_exact over a PageReader: one read call either fills the
buffer, or returns short with the cursor at block_offset = BLOCK_DATA_SIZE
(the chain ended), in which case read_exact's next read call trips the
zero-length overload of get_block_data_range and panics with RangeOverflow
before it can report UnexpectedEof. -/
def readExactS (st : DbState) (r : PageReaderS) (count : Nat) :
    Except DbError (List Nat × PageReaderS × DbState) :=
  match readS st r count with
  | .error e => .error e
  | .ok (bs, r', st') =>
    if bs.length = count then .ok (bs, r', st') else .error .RangeOverflow

/-- PageReader::new: acquire the page of the start address; the cursor
starts at its block with offset 0. -/
def readerNew (st : DbState) (start_address : BlockAddress) :
    Except DbError (PageReaderS × DbState) :=
  match get_page st start_address.page_index with
  | .error e => .error e
  | .ok (_, st') =>
    .ok ({ pi := start_address.page_index.toNat, block_index := start_address.block_index,
           block_offset := 0 }, st')

/-- State of a PageWriter (read_write.rs) together with its enclosed page
accessor: accessor page index and dirty flag, current block address, offset
within its payload, and the chain head. -/
structure PageWriterS where
  pi : Nat
  accChanges : Bool
  block_address : BlockAddress
  block_offset : Nat
  start_address : BlockAddress
  deriving DecidableEq, Repr

/-- PageAccessor::set_block_data: mutate the cached image through the shared
Rc<RefCell<Page>> and accumulate the accessor's dirty flag. -/
def accSetBlockData (st : DbState) (pi : Nat) (hasChanges : Bool) (index : Nat)
    (data : List Nat) (offset : Nat) : Except DbError (DbState × Bool) :=
  match (pageAt st pi).set_block_data index data offset with
  | .error e => .error e
  | .ok (p', changed) => .ok (cacheSet st pi p', hasChanges || changed)

/-- Drop (or commit) of a PageAccessor: commit the cached image iff the
accessor saw changes. -/
def accessorDrop (st : DbState) (pi : Nat) (hasChanges : Bool) : Except DbError DbState :=
  if hasChanges then commit_page st pi (pageAt st pi) else .ok st

/-- PageManager::get_page_with_free_blocks: find, then get.  (The source
takes an i32 start index; its callers pass 0 and current + 1, both
nonnegative.) -/
def get_page_with_free_blocks (st : DbState) (start : Nat) :
    Except DbError (Nat × Page × DbState) :=
  match find_page_with_free_blocks st start with
  | .error e => .error e
  | .ok index =>
    match get_page st (index : Int) with
    | .error e => .error e
    | .ok (p, st') => .ok (index, p, st')

/-- PageWriter::new: acquire a page with free blocks starting from page 0;
the chain head is that page's first free block. -/
def writerNew (st : DbState) : Except DbError (PageWriterS × DbState) :=
  match get_page_with_free_blocks st 0 with
  | .error e => .error e
  | .ok (index, p, st') =>
    .ok ({ pi := index, accChanges := false,
           block_address := BlockAddress.new (index : Int) p.first_free_block,
           block_offset := 0,
           start_address := BlockAddress.new (index : Int) p.first_free_block }, st')

/-- set_next_block_address from read_write.rs: write the 8 encoded bytes of
the successor address at offset BLOCK_DATA_SIZE of the block. -/
def setNextBlockAddress (st : DbState) (pi : Nat) (hasChanges : Bool) (block_index : Nat)
    (next : BlockAddress) : Except DbError (DbState × Bool) :=
  accSetBlockData st pi hasChanges block_index (encodeAddr next) BLOCK_DATA_SIZE

/-- PageWriter::copy_to_block. -/
def copyToBlock (st : DbState) (w : PageWriterS) (buf : List Nat) :
    Except DbError (DbState × PageWriterS) :=
  match accSetBlockData st w.pi w.accChanges w.block_address.block_index buf w.block_offset with
  | .error e => .error e
  | .ok (st', hc) =>
    .ok (st', { w with accChanges := hc, block_offset := w.block_offset + buf.length })

/-- PageWriter::go_to_next_block: reset the offset; if the current page is
full, acquire the next page with free blocks (the search runs before the old
accessor is dropped, matching the source's assignment order) and then drop
the old accessor (committing it if dirty); take the page's first free block
as the new block address; initialize the new block's successor pointer to
invalid; patch the previous block's successor pointer — through the same
accessor when both blocks share a page, else through a temporary accessor
that is dropped immediately (committing if its write changed bytes); and set
the chain head if the writer had none. -/
def writerGoNext (st : DbState) (w : PageWriterS) : Except DbError (DbState × PageWriterS) :=
  match (if (pageAt st w.pi).has_free_blocks = false then
          match get_page_with_free_blocks st (w.pi + 1) with
          | .error e => .error e
          | .ok (newIndex, _, st1) =>
            match accessorDrop st1 w.pi w.accChanges with
            | .error e => .error e
            | .ok st2 =>
              .ok (st2, { w with pi := newIndex, accChanges := false, block_offset := 0 })
         else .ok (st, { w with block_offset := 0 }) :
        Except DbError (DbState × PageWriterS)) with
  | .error e => .error e
  | .ok (st3, w1) =>
    match setNextBlockAddress st3 w1.pi w1.accChanges
        (pageAt st3 w1.pi).first_free_block BlockAddress.invalid with
    | .error e => .error e
    | .ok (st4, hc4) =>
      match (if w1.block_address ≠ BlockAddress.invalid then
              if w1.block_address.page_index = (w1.pi : Int) then
                match setNextBlockAddress st4 w1.pi hc4 w1.block_address.block_index
                    (BlockAddress.new (w1.pi : Int) (pageAt st3 w1.pi).first_free_block) with
                | .error e => .error e
                | .ok (st5, hc5) => .ok (st5, hc5)
              else
                match get_page st4 w1.block_address.page_index with
                | .error e => .error e
                | .ok (_, st5) =>
                  match setNextBlockAddress st5 w1.block_address.page_index.toNat false
                      w1.block_address.block_index
                      (BlockAddress.new (w1.pi : Int) (pageAt st3 w1.pi).first_free_block) with
                  | .error e => .error e
                  | .ok (st6, hc6) =>
                    match accessorDrop st6 w1.block_address.page_index.toNat hc6 with
                    | .error e => .error e
                    | .ok st7 => .ok (st7, hc4)
            else .ok (st4, hc4) : Except DbError (DbState × Bool)) with
      | .error e => .error e
      | .ok (st8, hc8) =>
        let newAddr := BlockAddress.new (w1.pi : Int) (pageAt st3 w1.pi).first_free_block
        .ok (st8,
          { w1 with
            accChanges := hc8,
            block_address := newAddr,
            start_address :=
              if w1.start_address = BlockAddress.invalid then newAddr else w1.start_address })

/-- Loop of PageWriter::write, with fuel.  data is the remaining input; buf
is the ORIGINAL buffer of the write call.  The non-final copy takes its
bytes from buf — not from data — faithfully reproducing the source's
`self.copy_to_block(&buf[..remaining_block_space])`. -/
def writeLoop : Nat → DbState → PageWriterS → List Nat → List Nat →
    Except DbError (DbState × PageWriterS)
  | 0, _, _, _, _ => .error .Fuel
  | fuel + 1, st, w, buf, data =>
    if data.length ≤ BLOCK_DATA_SIZE - w.block_offset then copyToBlock st w data
    else
      match copyToBlock st w (buf.take (BLOCK_DATA_SIZE - w.block_offset)) with
      | .error e => .error e
      | .ok (st1, w1) =>
        match writerGoNext st1 w1 with
        | .error e => .error e
        | .ok (st2, w2) =>
          writeLoop fuel st2 w2 buf (data.drop (BLOCK_DATA_SIZE - w.block_offset))

/-- PageWriter::write — also io::Write::write_all, which makes exactly one
write call here because write always consumes the whole buffer or fails. -/
def writerWrite (st : DbState) (w : PageWriterS) (buf : List Nat) :
    Except DbError (DbState × PageWriterS) :=
  writeLoop (buf.length + 1) st w buf buf

/-- PageWriter::flush_final_block: write invalid into the current block's
successor pointer through the current accessor. -/
def flushFinalBlock (st : DbState) (w : PageWriterS) : Except DbError (DbState × PageWriterS) :=
  match setNextBlockAddress st w.pi w.accChanges w.block_address.block_index
      BlockAddress.invalid with
  | .error e => .error e
  | .ok (st', hc) => .ok (st', { w with accChanges := hc })

/-- Drop of a PageWriter: flush the final block, then drop the enclosed
accessor (committing if dirty). -/
def writerDrop (st : DbState) (w : PageWriterS) : Except DbError DbState :=
  match flushFinalBlock st w with
  | .error e => .error e
  | .ok (st', w') => accessorDrop st' w'.pi w'.accChanges

/-- The 16-byte image of DbSystemInfo (two raw-copied BlockAddresses). -/
def sysInfoBytes (first last : BlockAddress) : List Nat := encodeAddr first ++ encodeAddr last

/-- State of a freshly created database (Database::new on an empty file:
default DbSystemInfo written at offset 0, default PagesHeader 0, empty
cache). -/
def freshDb : DbState where
  cached := fun _ => none
  fileLen := HEADER_OFFSET
  fileByte := fun pos =>
    if pos < HEADER_OFFSET then
      (sysInfoBytes BlockAddress.invalid BlockAddress.invalid).getD pos 0
    else 0
  first_page_with_free_blocks := 0
  first_record := BlockAddress.invalid
  last_record := BlockAddress.invalid

/-- The spec's chain round-trip scenario: write the input through a fresh
chain writer in a single write call, flush, then read input.length bytes
through a chain reader seeded with the writer's start_address. -/
def chainRoundTrip (input : List Nat) : Except DbError (List Nat) :=
  match writerNew freshDb with
  | .error e => .error e
  | .ok (w, st) =>
    match writerWrite st w input with
    | .error e => .error e
    | .ok (st1, w1) =>
      match flushFinalBlock st1 w1 with
      | .error e => .error e
      | .ok (st2, _) =>
        match readerNew st2 w1.start_address with
        | .error e => .error e
        | .ok (r, st3) =>
          match readS st3 r input.length with
          | .error e => .error e
          | .ok (bs, _, _) => .ok bs

/-- C2: the chain round-trip law FAILS at n = 113.  The writer's non-final
copies take their bytes from the start of the original buffer instead of the
remaining input (`copy_to_block(&buf[..remaining])` with buf, not data), so
the second block of a three-block write receives bytes 0..55 again; reading
back yields range 56 ++ range 56 ++ [112] instead of range 113. -/
theorem c2_roundtrip_code_bug :
    chainRoundTrip (List.range 113) = .ok (List.range 56 ++ List.range 56 ++ [112]) ∧
    List.range 56 ++ List.range 56 ++ [112] ≠ List.range 113 :=
  ⟨rfl, by decide⟩

/-- Reader scenario for C3: seed a chain reader at address a in state st,
skip s payload bytes, then read n bytes. -/
def skipThenRead (st : DbState) (a : BlockAddress) (s n : Nat) : Except DbError (List Nat) :=
  match readerNew st a with
  | .error e => .error e
  | .ok (r, st1) =>
    match skipS st1 r s with
    | .error e => .error e
    | .ok (r1, st2) =>
      match readS st2 r1 n with
      | .error e => .error e
      | .ok (bs, _, _) => .ok bs

/-- Reader scenario for C3: seed a chain reader at address a, read s + n
bytes and discard the first s. -/
def readAndDiscard (st : DbState) (a : BlockAddress) (s n : Nat) : Except DbError (List Nat) :=
  match readerNew st a with
  | .error e => .error e
  | .ok (r, st1) =>
    match readS st1 r (s + n) with
    | .error e => .error e
    | .ok (bs, _, _) => .ok (bs.drop s)

/-- A page holding a two-block chain: block 0 carries payload bytes 0..55
and points to block 1, which carries bytes 56..111 and terminates the
chain. -/
def twoBlockPage : Page where
  first_free_block := 2
  block_states := fun j => if j < 2 then 1 else 0
  blocks := fun j =>
    if j < 56 then j
    else if j < 64 then (encodeAddr (BlockAddress.new 0 1)).getD (j - 56) 0
    else if j < 120 then j - 8
    else if j < 128 then (encodeAddr BlockAddress.invalid).getD (j - 120) 0
    else 0

/-- A state caching the two-block chain on page 0. -/
def exC3St : DbState where
  cached := fun j => if j = 0 then some twoBlockPage else none
  fileLen := HEADER_OFFSET
  fileByte := fun _ => 0
  first_page_with_free_blocks := 0
  first_record := BlockAddress.invalid
  last_record := BlockAddress.invalid

/-- C3: on a chain holding 112 payload bytes, skipping 56 and then reading 1
byte PANICS (skip parks the cursor at block_offset = BLOCK_DATA_SIZE; the
next read asks for a zero-length block view, which the length-0 overload
widens past the block end, raising RangeOverflow), while reading 57 bytes
and discarding 56 succeeds and yields byte 56 — so the two sides of the
claimed law disagree.  skip itself succeeded, consistent with the claim's
SkipOverflow condition. -/
theorem c3_skip_read_code_bug :
    skipThenRead exC3St (BlockAddress.new 0 0) 56 1 = .error .RangeOverflow ∧
    readAndDiscard exC3St (BlockAddress.new 0 0) 56 1 = .ok [56] :=
  ⟨rfl, rfl⟩

/-- RecordHeader from lib.rs. -/
structure RecordHeader where
  next_record : BlockAddress
  key_size : Int
  data_size : Int
  deriving DecidableEq, Repr

/-- RecordHeader::size_in_buffer (8 + 4 + 4, with the address's padding). -/
def RECORD_HEADER_SIZE : Nat := 16

/-- The 16 bytes of a RecordHeader produced by the raw struct copy. -/
def encodeRecordHeader (h : RecordHeader) : List Nat :=
  encodeAddr h.next_record ++ i32ToLeBytes h.key_size ++ i32ToLeBytes h.data_size

/-- Reading a RecordHeader back from its 16 bytes. -/
def decodeRecordHeader (bs : List Nat) : RecordHeader where
  next_record := decodeAddr bs
  key_size := decodeI32 (bs.getD 8 0) (bs.getD 9 0) (bs.getD 10 0) (bs.getD 11 0)
  data_size := decodeI32 (bs.getD 12 0) (bs.getD 13 0) (bs.getD 14 0) (bs.getD 15 0)

/-- The source's `as usize` cast of an i32 (sign extension to 64 bits, then
reinterpretation). -/
def i32ToUsize (v : Int) : Nat := (v % 18446744073709551616).toNat

/-- Fuel for the record-list walk of Database::find: far more records than
any file of MAX_PAGE_COUNT pages can hold, so exhaustion only models the
source's non-termination on a cyclic next_record list. -/
def FIND_RECORD_FUEL : Nat := 1099511627776

/-- Loop of Database::find: while the record address is valid, open a chain
reader there, read the 16-byte record header, compare key sizes, read and
compare the key bytes, and either return the record or follow
next_record. -/
def findRecordLoop : Nat → DbState → BlockAddress → List Nat →
    Except DbError (Option (RecordHeader × BlockAddress) × DbState)
  | 0, _, _, _ => .error .Fuel
  | fuel + 1, st, addr, key =>
    if addr = BlockAddress.invalid then .ok (none, st)
    else
      match readerNew st addr with
      | .error e => .error e
      | .ok (r, st1) =>
        match readExactS st1 r RECORD_HEADER_SIZE with
        | .error e => .error e
        | .ok (hdrBytes, r1, st2) =>
          if i32ToUsize (decodeRecordHeader hdrBytes).key_size = key.length then
            match readExactS st2 r1 key.length with
            | .error e => .error e
            | .ok (keyBytes, _, st3) =>
              if keyBytes = key then .ok (some (decodeRecordHeader hdrBytes, addr), st3)
              else findRecordLoop fuel st3 (decodeRecordHeader hdrBytes).next_record key
          else findRecordLoop fuel st2 (decodeRecordHeader hdrBytes).next_record key

/-- Database::find from lib.rs. -/
def dbFindS (st : DbState) (key : List Nat) :
    Except DbError (Option (RecordHeader × BlockAddress) × DbState) :=
  if st.first_record = BlockAddress.invalid then .ok (none, st)
  else findRecordLoop FIND_RECORD_FUEL st st.first_record key

/-- Database::get from lib.rs: find the record, skip its header and key,
read_exact data_size bytes. -/
def dbGetS (st : DbState) (key : List Nat) :
    Except DbError (Option (List Nat) × DbState) :=
  match dbFindS st key with
  | .error e => .error e
  | .ok (none, st1) => .ok (none, st1)
  | .ok (some (hdr, addr), st1) =>
    match readerNew st1 addr with
    | .error e => .error e
    | .ok (r, st2) =>
      match skipS st2 r (RECORD_HEADER_SIZE + i32ToUsize hdr.key_size) with
      | .error e => .error e
      | .ok (r1, st3) =>
        match readExactS st3 r1 (i32ToUsize hdr.data_size) with
        | .error e => .error e
        | .ok (bs, _, st4) => .ok (some bs, st4)

/-- Database::get_to_buffer from lib.rs: find the record; panic("123") —
modelled as ShortBuffer — when the caller's buffer is shorter than the
stored value; skip the header and key; then issue ONE read of the full
buffer length (not of data_size); the resulting buffer is the bytes read
followed by the untouched tail of the caller's buffer. -/
def dbGetToBufferS (st : DbState) (key buffer : List Nat) :
    Except DbError (Bool × List Nat × DbState) :=
  match dbFindS st key with
  | .error e => .error e
  | .ok (none, st1) => .ok (false, buffer, st1)
  | .ok (some (hdr, addr), st1) =>
    if buffer.length < i32ToUsize hdr.data_size then .error .ShortBuffer
    else
      match readerNew st1 addr with
      | .error e => .error e
      | .ok (r, st2) =>
        match skipS st2 r (RECORD_HEADER_SIZE + i32ToUsize hdr.key_size) with
        | .error e => .error e
        | .ok (r1, st3) =>
          match readS st3 r1 buffer.length with
          | .error e => .error e
          | .ok (bs, _, st4) => .ok (true, bs ++ buffer.drop bs.length, st4)

/-- Database::write_system_info: persist the 16-byte DbSystemInfo at file
offset 0. -/
def writeSystemInfo (st : DbState) : DbState :=
  { st with
    fileLen := max st.fileLen HEADER_OFFSET,
    fileByte := fun pos =>
      if pos < HEADER_OFFSET then (sysInfoBytes st.first_record st.last_record).getD pos 0
      else if pos < st.fileLen then st.fileByte pos
      else 0 }

/-- Database::set from lib.rs: return unchanged (beyond find's cache fills)
when the key is already present; otherwise lay the record header, key and
data into a fresh chain through three write calls, drop the writer
(flushing the tail pointer and committing), patch the previous tail
record's next_record in place through a page accessor, update the in-memory
system info (last_record, and first_record if it was invalid) and persist
it. -/
def dbSet (st : DbState) (key data : List Nat) : Except DbError DbState :=
  match dbFindS st key with
  | .error e => .error e
  | .ok (some _, st1) => .ok st1
  | .ok (none, st1) =>
    match writerNew st1 with
    | .error e => .error e
    | .ok (w, st2) =>
      match writerWrite st2 w (encodeRecordHeader
          { next_record := BlockAddress.invalid,
            key_size := (key.length : Int), data_size := (data.length : Int) }) with
      | .error e => .error e
      | .ok (st3, w1) =>
        match writerWrite st3 w1 key with
        | .error e => .error e
        | .ok (st4, w2) =>
          match writerWrite st4 w2 data with
          | .error e => .error e
          | .ok (st5, w3) =>
            match writerDrop st5 w3 with
            | .error e => .error e
            | .ok st6 =>
              match (if st6.last_record ≠ BlockAddress.invalid then
                      match get_page st6 st6.last_record.page_index with
                      | .error e => .error e
                      | .ok (_, st7) =>
                        match (pageAt st7 st6.last_record.page_index.toNat).get_block_data
                            st6.last_record.block_index 0 RECORD_HEADER_SIZE with
                        | .error e => .error e
                        | .ok hdrBytes =>
                          match accSetBlockData st7 st6.last_record.page_index.toNat false
                              st6.last_record.block_index
                              (encodeRecordHeader
                                { next_record := w3.start_address,
                                  key_size := (decodeRecordHeader hdrBytes).key_size,
                                  data_size := (decodeRecordHeader hdrBytes).data_size }) 0 with
                          | .error e => .error e
                          | .ok (st8, hc) =>
                            accessorDrop st8 st6.last_record.page_index.toNat hc
                     else .ok st6 : Except DbError DbState) with
              | .error e => .error e
              | .ok st9 =>
                .ok (writeSystemInfo
                  { st9 with
                    last_record := w3.start_address,
                    first_record :=
                      if st9.first_record = BlockAddress.invalid then w3.start_address
                      else st9.first_record })

/-- The spec's set-then-get scenario from a fresh database. -/
def setThenGet (key data : List Nat) : Except DbError (Option (List Nat)) :=
  match dbSet freshDb key data with
  | .error e => .error e
  | .ok st =>
    match dbGetS st key with
    | .error e => .error e
    | .ok (res, _) => .ok res

/-- C1: set-then-get FAILS for a 100-byte value under key "k" (byte 107) on
a fresh database.  The record layout places the value at payload offset 17,
so the value write spans three blocks; the writer's non-final copies take
bytes from the start of the write buffer instead of the remaining data, so
get returns value[0..39] ++ value[0..56] ++ value[95..100] instead of the
value.  set itself succeeds, so the claim's premise holds. -/
theorem c1_set_get_code_bug :
    setThenGet [107] (List.range 100) =
      .ok (some (List.range 39 ++ List.range 56 ++ [95, 96, 97, 98, 99])) ∧
    List.range 39 ++ List.range 56 ++ [95, 96, 97, 98, 99] ≠ List.range 100 :=
  ⟨rfl, by decide⟩

/-- Equality of the persistent (non-cache) components of two states. -/
def persistentEq (st t : DbState) : Prop :=
  st.fileLen = t.fileLen ∧ (∀ pos, st.fileByte pos = t.fileByte pos) ∧
  st.first_page_with_free_blocks = t.first_page_with_free_blocks ∧
  st.first_record = t.first_record ∧ st.last_record = t.last_record

/-- Observational equivalence of database states: equal persistent
components and the same effective page image at every index (the caches may
differ by entries that match what a load from the file would produce). -/
def obsEq (st t : DbState) : Prop :=
  persistentEq st t ∧ ∀ i, pageAt st i = pageAt t i

theorem obsEq_refl (st : DbState) : obsEq st st :=
  ⟨⟨rfl, fun _ => rfl, rfl, rfl, rfl⟩, fun _ => rfl⟩

theorem obsEq_symm {st t : DbState} (h : obsEq st t) : obsEq t st :=
  ⟨⟨h.1.1.symm, fun pos => (h.1.2.1 pos).symm, h.1.2.2.1.symm, h.1.2.2.2.1.symm,
    h.1.2.2.2.2.symm⟩, fun i => (h.2 i).symm⟩

theorem obsEq_trans {st t u : DbState} (h1 : obsEq st t) (h2 : obsEq t u) : obsEq st u :=
  ⟨⟨h1.1.1.trans h2.1.1, fun pos => (h1.1.2.1 pos).trans (h2.1.2.1 pos),
    h1.1.2.2.1.trans h2.1.2.2.1, h1.1.2.2.2.1.trans h2.1.2.2.2.1,
    h1.1.2.2.2.2.trans h2.1.2.2.2.2⟩, fun i => (h1.2 i).trans (h2.2 i)⟩

/-- Inserting the loaded image of an uncached page leaves every effective
page unchanged. -/
theorem pageAt_cacheSet_load (st : DbState) (i : Nat) (hc : st.cached i = none) :
    ∀ j, pageAt (cacheSet st i (loadPage st i)) j = pageAt st j := by
  intro j
  unfold pageAt cacheSet
  simp only
  by_cases hj : j = i
  · subst hj
    rw [if_pos rfl, hc]
    rfl
  · rw [if_neg hj]
    rfl

/-- A successful get_page returns the effective page and an observationally
equal state. -/
theorem get_page_ok {st : DbState} {i : Int} {p : Page} {st' : DbState}
    (h : get_page st i = .ok (p, st')) :
    p = pageAt st i.toNat ∧ obsEq st st' ∧ ¬(i < 0 ∨ (MAX_PAGE_COUNT : Int) ≤ i) := by
  unfold get_page at h
  by_cases hcond : i < 0 ∨ (MAX_PAGE_COUNT : Int) ≤ i
  · rw [if_pos hcond] at h
    exact absurd h (by simp)
  · rw [if_neg hcond] at h
    cases hc : st.cached i.toNat with
    | some q =>
      rw [hc] at h
      obtain ⟨hp, hs⟩ := Prod.mk.inj (Except.ok.inj h)
      refine ⟨?_, ?_, hcond⟩
      · rw [← hp]
        unfold pageAt
        rw [hc]
        rfl
      · rw [← hs]
        exact obsEq_refl st
    | none =>
      rw [hc] at h
      obtain ⟨hp, hs⟩ := Prod.mk.inj (Except.ok.inj h)
      refine ⟨?_, ?_, hcond⟩
      · rw [← hp]
        unfold pageAt
        rw [hc]
        rfl
      · rw [← hs]
        exact ⟨⟨rfl, fun _ => rfl, rfl, rfl, rfl⟩,
          fun j => (pageAt_cacheSet_load st i.toNat hc j).symm⟩

/-- get_page only fails on an out-of-range index, with InvalidPage. -/
theorem get_page_error {st : DbState} {i : Int} {e : DbError}
    (h : get_page st i = .error e) :
    e = .InvalidPage ∧ (i < 0 ∨ (MAX_PAGE_COUNT : Int) ≤ i) := by
  unfold get_page at h
  by_cases hcond : i < 0 ∨ (MAX_PAGE_COUNT : Int) ≤ i
  · rw [if_pos hcond] at h
    exact ⟨(Except.error.inj h).symm, hcond⟩
  · rw [if_neg hcond] at h
    cases hc : st.cached i.toNat with
    | some q => rw [hc] at h; exact absurd h (by simp)
    | none => rw [hc] at h; exact absurd h (by simp)

/-- get_page succeeds on every in-range index. -/
theorem get_page_isOk (st : DbState) (i : Int)
    (h : ¬(i < 0 ∨ (MAX_PAGE_COUNT : Int) ≤ i)) :
    ∃ p st', get_page st i = .ok (p, st') := by
  unfold get_page
  rw [if_neg h]
  cases hc : st.cached i.toNat with
  | some q => exact ⟨q, st, rfl⟩
  | none => exact ⟨_, _, rfl⟩

/-- get_page congruence along observational equivalence. -/
theorem get_page_congr {st t : DbState} (h : obsEq st t) (i : Int) :
    (∀ e, get_page st i = .error e → get_page t i = .error e) ∧
    (∀ p st', get_page st i = .ok (p, st') →
      ∃ t', get_page t i = .ok (p, t') ∧ obsEq st' t') := by
  constructor
  · intro e he
    obtain ⟨rfl, hcond⟩ := get_page_error he
    unfold get_page
    rw [if_pos hcond]
  · intro p st' hok
    obtain ⟨hp, hobs, hcond⟩ := get_page_ok hok
    obtain ⟨q, t', ht⟩ := get_page_isOk t i hcond
    obtain ⟨hq, hobst, -⟩ := get_page_ok ht
    refine ⟨t', ?_, ?_⟩
    · rw [ht, hq, ← h.2 i.toNat, ← hp]
    · exact obsEq_trans (obsEq_trans (obsEq_symm hobs) h) hobst

/-- copy_block only reads through the effective page, so it agrees across
observationally equal states. -/
theorem copyBlock_congr {st t : DbState} {r : PageReaderS}
    (hp : pageAt t r.pi = pageAt st r.pi) (len : Nat) :
    copyBlock t r len = copyBlock st r len := by
  unfold copyBlock
  rw [hp]

/-- go_to_next_block leaves the state observationally unchanged. -/
theorem goToNextBlock_ok {st : DbState} {r : PageReaderS} {b : Bool} {r' : PageReaderS}
    {st' : DbState} (h : goToNextBlock st r = .ok (b, r', st')) : obsEq st st' := by
  unfold goToNextBlock at h
  cases hgd : (pageAt st r.pi).get_block_data r.block_index BLOCK_DATA_SIZE BLOCK_ADDRESS_SIZE with
  | error e0 =>
    rw [hgd] at h
    exact absurd h (by simp)
  | ok bs =>
    rw [hgd] at h
    simp only at h
    by_cases hinv : decodeAddr bs = BlockAddress.invalid
    · rw [if_pos hinv] at h
      obtain ⟨-, h2⟩ := Prod.mk.inj (Except.ok.inj h)
      obtain ⟨-, h3⟩ := Prod.mk.inj h2
      rw [← h3]
      exact obsEq_refl st
    · rw [if_neg hinv] at h
      by_cases hpg : (decodeAddr bs).page_index ≠ (r.pi : Int)
      · rw [if_pos hpg] at h
        cases hgp : get_page st (decodeAddr bs).page_index with
        | error e =>
          rw [hgp] at h
          exact absurd h (by simp)
        | ok pr =>
          obtain ⟨p2, st2⟩ := pr
          rw [hgp] at h
          simp only at h
          obtain ⟨-, h2⟩ := Prod.mk.inj (Except.ok.inj h)
          obtain ⟨-, h3⟩ := Prod.mk.inj h2
          rw [← h3]
          exact (get_page_ok hgp).2.1
      · rw [if_neg hpg] at h
        obtain ⟨-, h2⟩ := Prod.mk.inj (Except.ok.inj h)
        obtain ⟨-, h3⟩ := Prod.mk.inj h2
        rw [← h3]
        exact obsEq_refl st

/-- go_to_next_block congruence along observational equivalence
(ok direction). -/
theorem goToNextBlock_congr {st t : DbState} {r : PageReaderS} {b : Bool} {r' : PageReaderS}
    {st' : DbState} (h : obsEq st t) (hok : goToNextBlock st r = .ok (b, r', st')) :
    ∃ t', goToNextBlock t r = .ok (b, r', t') ∧ obsEq st' t' := by
  have hp : pageAt t r.pi = pageAt st r.pi := (h.2 r.pi).symm
  unfold goToNextBlock at hok ⊢
  rw [hp]
  cases hgd : (pageAt st r.pi).get_block_data r.block_index BLOCK_DATA_SIZE BLOCK_ADDRESS_SIZE with
  | error e0 =>
    rw [hgd] at hok
    exact absurd hok (by simp)
  | ok bs =>
    rw [hgd] at hok
    simp only at hok ⊢
    by_cases hinv : decodeAddr bs = BlockAddress.invalid
    · rw [if_pos hinv] at hok ⊢
      obtain ⟨h1, h2⟩ := Prod.mk.inj (Except.ok.inj hok)
      obtain ⟨h3, h4⟩ := Prod.mk.inj h2
      rw [← h1, ← h3, ← h4]
      exact ⟨t, rfl, h⟩
    · rw [if_neg hinv] at hok ⊢
      by_cases hpg : (decodeAddr bs).page_index ≠ (r.pi : Int)
      · rw [if_pos hpg] at hok ⊢
        cases hgp : get_page st (decodeAddr bs).page_index with
        | error e =>
          rw [hgp] at hok
          exact absurd hok (by simp)
        | ok pr =>
          obtain ⟨p2, st2⟩ := pr
          rw [hgp] at hok
          simp only at hok
          obtain ⟨ht2, hgt, hobs2⟩ := (get_page_congr h (decodeAddr bs).page_index).2 p2 st2 hgp
          rw [hgt]
          simp only
          obtain ⟨h1, h2⟩ := Prod.mk.inj (Except.ok.inj hok)
          obtain ⟨h3, h4⟩ := Prod.mk.inj h2
          rw [← h1, ← h3, ← h4]
          exact ⟨ht2, rfl, hobs2⟩
      · rw [if_neg hpg] at hok ⊢
        obtain ⟨h1, h2⟩ := Prod.mk.inj (Except.ok.inj hok)
        obtain ⟨h3, h4⟩ := Prod.mk.inj h2
        rw [← h1, ← h3, ← h4]
        exact ⟨t, rfl, h⟩

/-- The read loop leaves the state observationally unchanged. -/
theorem readLoop_pres (fuel : Nat) :
    ∀ {st : DbState} {r : PageReaderS} {count : Nat} {bs : List Nat} {r' : PageReaderS}
      {st' : DbState}, readLoop fuel st r count = .ok (bs, r', st') → obsEq st st' := by
  induction fuel with
  | zero =>
    intro st r count bs r' st' h
    rw [readLoop] at h
    exact absurd h (by simp)
  | succ n ih =>
    intro st r count bs r' st' h
    rw [readLoop] at h
    by_cases hc0 : count = 0
    · rw [if_pos hc0] at h
      obtain ⟨-, h2⟩ := Prod.mk.inj (Except.ok.inj h)
      obtain ⟨-, h3⟩ := Prod.mk.inj h2
      rw [← h3]
      exact obsEq_refl st
    · rw [if_neg hc0] at h
      by_cases hfit : count ≤ BLOCK_DATA_SIZE - r.block_offset
      · rw [if_pos hfit] at h
        cases hcb : copyBlock st r count with
        | error e =>
          rw [hcb] at h
          exact absurd h (by simp)
        | ok br =>
          obtain ⟨bs1, r1⟩ := br
          rw [hcb] at h
          simp only at h
          obtain ⟨-, h2⟩ := Prod.mk.inj (Except.ok.inj h)
          obtain ⟨-, h3⟩ := Prod.mk.inj h2
          rw [← h3]
          exact obsEq_refl st
      · rw [if_neg hfit] at h
        cases hcb : copyBlock st r (BLOCK_DATA_SIZE - r.block_offset) with
        | error e =>
          rw [hcb] at h
          exact absurd h (by simp)
        | ok br =>
          obtain ⟨bs1, r1⟩ := br
          rw [hcb] at h
          simp only at h
          cases hgn : goToNextBlock st r1 with
          | error e =>
            rw [hgn] at h
            exact absurd h (by simp)
          | ok tr =>
            obtain ⟨flag, r2, st2⟩ := tr
            rw [hgn] at h
            cases flag with
            | false =>
              simp only at h
              obtain ⟨-, h2⟩ := Prod.mk.inj (Except.ok.inj h)
              obtain ⟨-, h3⟩ := Prod.mk.inj h2
              rw [← h3]
              exact goToNextBlock_ok hgn
            | true =>
              simp only at h
              cases hrl : readLoop n st2 r2 (count - (BLOCK_DATA_SIZE - r.block_offset)) with
              | error e =>
                rw [hrl] at h
                exact absurd h (by simp)
              | ok br3 =>
                obtain ⟨bs2, r3, st3⟩ := br3
                rw [hrl] at h
                simp only at h
                obtain ⟨-, h2⟩ := Prod.mk.inj (Except.ok.inj h)
                obtain ⟨-, h3⟩ := Prod.mk.inj h2
                rw [← h3]
                exact obsEq_trans (goToNextBlock_ok hgn) (ih hrl)

/-- Read-loop congruence along observational equivalence (ok direction). -/
theorem readLoop_congr (fuel : Nat) :
    ∀ {st t : DbState} {r : PageReaderS} {count : Nat} {bs : List Nat} {r' : PageReaderS}
      {st' : DbState}, obsEq st t → readLoop fuel st r count = .ok (bs, r', st') →
      ∃ t', readLoop fuel t r count = .ok (bs, r', t') ∧ obsEq st' t' := by
  induction fuel with
  | zero =>
    intro st t r count bs r' st' h hok
    rw [readLoop] at hok
    exact absurd hok (by simp)
  | succ n ih =>
    intro st t r count bs r' st' h hok
    rw [readLoop] at hok ⊢
    by_cases hc0 : count = 0
    · rw [if_pos hc0] at hok ⊢
      obtain ⟨h1, h2⟩ := Prod.mk.inj (Except.ok.inj hok)
      obtain ⟨h3, h4⟩ := Prod.mk.inj h2
      rw [← h1, ← h3, ← h4]
      exact ⟨t, rfl, h⟩
    · rw [if_neg hc0] at hok ⊢
      have hp : pageAt t r.pi = pageAt st r.pi := (h.2 r.pi).symm
      by_cases hfit : count ≤ BLOCK_DATA_SIZE - r.block_offset
      · rw [if_pos hfit] at hok ⊢
        rw [copyBlock_congr hp]
        cases hcb : copyBlock st r count with
        | error e =>
          rw [hcb] at hok
          exact absurd hok (by simp)
        | ok br =>
          obtain ⟨bs1, r1⟩ := br
          rw [hcb] at hok
          simp only at hok ⊢
          obtain ⟨h1, h2⟩ := Prod.mk.inj (Except.ok.inj hok)
          obtain ⟨h3, h4⟩ := Prod.mk.inj h2
          rw [← h1, ← h3, ← h4]
          exact ⟨t, rfl, h⟩
      · rw [if_neg hfit] at hok ⊢
        rw [copyBlock_congr hp]
        cases hcb : copyBlock st r (BLOCK_DATA_SIZE - r.block_offset) with
        | error e =>
          rw [hcb] at hok
          exact absurd hok (by simp)
        | ok br =>
          obtain ⟨bs1, r1⟩ := br
          rw [hcb] at hok
          simp only at hok ⊢
          cases hgn : goToNextBlock st r1 with
          | error e =>
            rw [hgn] at hok
            exact absurd hok (by simp)
          | ok tr =>
            obtain ⟨flag, r2, st2⟩ := tr
            rw [hgn] at hok
            obtain ⟨t2, hgt, hobs2⟩ := goToNextBlock_congr h hgn
            rw [hgt]
            cases flag with
            | false =>
              simp only at hok ⊢
              obtain ⟨h1, h2⟩ := Prod.mk.inj (Except.ok.inj hok)
              obtain ⟨h3, h4⟩ := Prod.mk.inj h2
              rw [← h1, ← h3, ← h4]
              exact ⟨t2, rfl, hobs2⟩
            | true =>
              simp only at hok ⊢
              cases hrl : readLoop n st2 r2 (count - (BLOCK_DATA_SIZE - r.block_offset)) with
              | error e =>
                rw [hrl] at hok
                exact absurd hok (by simp)
              | ok br3 =>
                obtain ⟨bs2, r3, st3⟩ := br3
                rw [hrl] at hok
                simp only at hok
                obtain ⟨t3, hrt, hobs3⟩ := ih hobs2 hrl
                rw [hrt]
                simp only
                obtain ⟨h1, h2⟩ := Prod.mk.inj (Except.ok.inj hok)
                obtain ⟨h3, h4⟩ := Prod.mk.inj h2
                rw [← h1, ← h3, ← h4]
                exact ⟨t3, rfl, hobs3⟩

/-- The skip loop leaves the state observationally unchanged. -/
theorem skipLoop_pres (fuel : Nat) :
    ∀ {st : DbState} {r : PageReaderS} {skip : Nat} {r' : PageReaderS} {st' : DbState},
      skipLoop fuel st r skip = .ok (r', st') → obsEq st st' := by
  induction fuel with
  | zero =>
    intro st r skip r' st' h
    rw [skipLoop] at h
    exact absurd h (by simp)
  | succ n ih =>
    intro st r skip r' st' h
    rw [skipLoop] at h
    by_cases hfit : skip ≤ BLOCK_DATA_SIZE - r.block_offset
    · rw [if_pos hfit] at h
      obtain ⟨-, h2⟩ := Prod.mk.inj (Except.ok.inj h)
      rw [← h2]
      exact obsEq_refl st
    · rw [if_neg hfit] at h
      cases hgn : goToNextBlock st r with
      | error e =>
        rw [hgn] at h
        exact absurd h (by simp)
      | ok tr =>
        obtain ⟨flag, r1, st1⟩ := tr
        rw [hgn] at h
        cases flag with
        | false =>
          simp only at h
          exact absurd h (by simp)
        | true =>
          simp only at h
          exact obsEq_trans (goToNextBlock_ok hgn) (ih h)

/-- Skip-loop congruence along observational equivalence (ok direction). -/
theorem skipLoop_congr (fuel : Nat) :
    ∀ {st t : DbState} {r : PageReaderS} {skip : Nat} {r' : PageReaderS} {st' : DbState},
      obsEq st t → skipLoop fuel st r skip = .ok (r', st') →
      ∃ t', skipLoop fuel t r skip = .ok (r', t') ∧ obsEq st' t' := by
  induction fuel with
  | zero =>
    intro st t r skip r' st' h hok
    rw [skipLoop] at hok
    exact absurd hok (by simp)
  | succ n ih =>
    intro st t r skip r' st' h hok
    rw [skipLoop] at hok ⊢
    by_cases hfit : skip ≤ BLOCK_DATA_SIZE - r.block_offset
    · rw [if_pos hfit] at hok ⊢
      obtain ⟨h1, h2⟩ := Prod.mk.inj (Except.ok.inj hok)
      rw [← h1, ← h2]
      exact ⟨t, rfl, h⟩
    · rw [if_neg hfit] at hok ⊢
      cases hgn : goToNextBlock st r with
      | error e =>
        rw [hgn] at hok
        exact absurd hok (by simp)
      | ok tr =>
        obtain ⟨flag, r1, st1⟩ := tr
        rw [hgn] at hok
        obtain ⟨t1, hgt, hobs1⟩ := goToNextBlock_congr h hgn
        rw [hgt]
        cases flag with
        | false =>
          simp only at hok
          exact absurd hok (by simp)
        | true =>
          simp only at hok ⊢
          exact ih hobs1 hok

/-- PageReader::new leaves the state observationally unchanged. -/
theorem readerNew_pres {st : DbState} {a : BlockAddress} {r : PageReaderS} {st' : DbState}
    (h : readerNew st a = .ok (r, st')) : obsEq st st' := by
  unfold readerNew at h
  cases hgp : get_page st a.page_index with
  | error e =>
    rw [hgp] at h
    exact absurd h (by simp)
  | ok pr =>
    obtain ⟨p, st1⟩ := pr
    rw [hgp] at h
    simp only at h
    obtain ⟨-, h2⟩ := Prod.mk.inj (Except.ok.inj h)
    rw [← h2]
    exact (get_page_ok hgp).2.1

/-- PageReader::new congruence (ok direction). -/
theorem readerNew_congr {st t : DbState} {a : BlockAddress} {r : PageReaderS} {st' : DbState}
    (h : obsEq st t) (hok : readerNew st a = .ok (r, st')) :
    ∃ t', readerNew t a = .ok (r, t') ∧ obsEq st' t' := by
  unfold readerNew at hok ⊢
  cases hgp : get_page st a.page_index with
  | error e =>
    rw [hgp] at hok
    exact absurd hok (by simp)
  | ok pr =>
    obtain ⟨p, st1⟩ := pr
    rw [hgp] at hok
    simp only at hok
    obtain ⟨t1, hgt, hobs1⟩ := (get_page_congr h a.page_index).2 p st1 hgp
    rw [hgt]
    simp only
    obtain ⟨h1, h2⟩ := Prod.mk.inj (Except.ok.inj hok)
    rw [← h1, ← h2]
    exact ⟨t1, rfl, hobs1⟩

/-- read_exact leaves the state observationally unchanged. -/
theorem readExactS_pres {st : DbState} {r : PageReaderS} {count : Nat} {bs : List Nat}
    {r' : PageReaderS} {st' : DbState} (h : readExactS st r count = .ok (bs, r', st')) :
    obsEq st st' := by
  unfold readExactS at h
  cases hrd : readS st r count with
  | error e =>
    rw [hrd] at h
    exact absurd h (by simp)
  | ok br =>
    obtain ⟨bs1, r1, st1⟩ := br
    rw [hrd] at h
    simp only at h
    by_cases hlen : bs1.length = count
    · rw [if_pos hlen] at h
      obtain ⟨-, h2⟩ := Prod.mk.inj (Except.ok.inj h)
      obtain ⟨-, h3⟩ := Prod.mk.inj h2
      rw [← h3]
      exact readLoop_pres (count + 1) hrd
    · rw [if_neg hlen] at h
      exact absurd h (by simp)

/-- read_exact congruence (ok direction). -/
theorem readExactS_congr {st t : DbState} {r : PageReaderS} {count : Nat} {bs : List Nat}
    {r' : PageReaderS} {st' : DbState} (h : obsEq st t)
    (hok : readExactS st r count = .ok (bs, r', st')) :
    ∃ t', readExactS t r count = .ok (bs, r', t') ∧ obsEq st' t' := by
  unfold readExactS at hok ⊢
  cases hrd : readS st r count with
  | error e =>
    rw [hrd] at hok
    exact absurd hok (by simp)
  | ok br =>
    obtain ⟨bs1, r1, st1⟩ := br
    rw [hrd] at hok
    simp only at hok
    obtain ⟨t1, hrt, hobs1⟩ := readLoop_congr (count + 1) h hrd
    rw [show readS t r count = .ok (bs1, r1, t1) from hrt]
    simp only
    by_cases hlen : bs1.length = count
    · rw [if_pos hlen] at hok ⊢
      obtain ⟨h1, h2⟩ := Prod.mk.inj (Except.ok.inj hok)
      obtain ⟨h3, h4⟩ := Prod.mk.inj h2
      rw [← h1, ← h3, ← h4]
      exact ⟨t1, rfl, hobs1⟩
    · rw [if_neg hlen] at hok
      exact absurd hok (by simp)

/-- The record-list walk of Database::find leaves the state observationally
unchanged (readers never dirty a page). -/
theorem findRecordLoop_pres (fuel : Nat) :
    ∀ {st : DbState} {addr : BlockAddress} {key : List Nat}
      {res : Option (RecordHeader × BlockAddress)} {st' : DbState},
      findRecordLoop fuel st addr key = .ok (res, st') → obsEq st st' := by
  induction fuel with
  | zero =>
    intro st addr key res st' h
    rw [findRecordLoop] at h
    exact absurd h (by simp)
  | succ n ih =>
    intro st addr key res st' h
    rw [findRecordLoop] at h
    by_cases hinv : addr = BlockAddress.invalid
    · rw [if_pos hinv] at h
      obtain ⟨-, h2⟩ := Prod.mk.inj (Except.ok.inj h)
      rw [← h2]
      exact obsEq_refl st
    · rw [if_neg hinv] at h
      cases hrn : readerNew st addr with
      | error e =>
        rw [hrn] at h
        exact absurd h (by simp)
      | ok pr =>
        obtain ⟨r, st1⟩ := pr
        rw [hrn] at h
        simp only at h
        cases hre : readExactS st1 r RECORD_HEADER_SIZE with
        | error e =>
          rw [hre] at h
          exact absurd h (by simp)
        | ok hb =>
          obtain ⟨hdrBytes, r1, st2⟩ := hb
          rw [hre] at h
          simp only at h
          have hobs2 : obsEq st st2 :=
            obsEq_trans (readerNew_pres hrn) (readExactS_pres hre)
          by_cases hks : i32ToUsize (decodeRecordHeader hdrBytes).key_size = key.length
          · rw [if_pos hks] at h
            cases hke : readExactS st2 r1 key.length with
            | error e =>
              rw [hke] at h
              exact absurd h (by simp)
            | ok kb =>
              obtain ⟨keyBytes, r2, st3⟩ := kb
              rw [hke] at h
              simp only at h
              have hobs3 : obsEq st st3 := obsEq_trans hobs2 (readExactS_pres hke)
              by_cases hkeq : keyBytes = key
              · rw [if_pos hkeq] at h
                obtain ⟨-, h2⟩ := Prod.mk.inj (Except.ok.inj h)
                rw [← h2]
                exact hobs3
              · rw [if_neg hkeq] at h
                exact obsEq_trans hobs3 (ih h)
          · rw [if_neg hks] at h
            exact obsEq_trans hobs2 (ih h)

/-- Record-walk congruence along observational equivalence (ok direction). -/
theorem findRecordLoop_congr (fuel : Nat) :
    ∀ {st t : DbState} {addr : BlockAddress} {key : List Nat}
      {res : Option (RecordHeader × BlockAddress)} {st' : DbState},
      obsEq st t → findRecordLoop fuel st addr key = .ok (res, st') →
      ∃ t', findRecordLoop fuel t addr key = .ok (res, t') ∧ obsEq st' t' := by
  induction fuel with
  | zero =>
    intro st t addr key res st' h hok
    rw [findRecordLoop] at hok
    exact absurd hok (by simp)
  | succ n ih =>
    intro st t addr key res st' h hok
    rw [findRecordLoop] at hok ⊢
    by_cases hinv : addr = BlockAddress.invalid
    · rw [if_pos hinv] at hok ⊢
      obtain ⟨h1, h2⟩ := Prod.mk.inj (Except.ok.inj hok)
      rw [← h1, ← h2]
      exact ⟨t, rfl, h⟩
    · rw [if_neg hinv] at hok ⊢
      cases hrn : readerNew st addr with
      | error e =>
        rw [hrn] at hok
        exact absurd hok (by simp)
      | ok pr =>
        obtain ⟨r, st1⟩ := pr
        rw [hrn] at hok
        simp only at hok
        obtain ⟨t1, hrt, hobs1⟩ := readerNew_congr h hrn
        rw [hrt]
        simp only
        cases hre : readExactS st1 r RECORD_HEADER_SIZE with
        | error e =>
          rw [hre] at hok
          exact absurd hok (by simp)
        | ok hb =>
          obtain ⟨hdrBytes, r1, st2⟩ := hb
          rw [hre] at hok
          simp only at hok
          obtain ⟨t2, hret, hobs2⟩ := readExactS_congr hobs1 hre
          rw [hret]
          simp only
          by_cases hks : i32ToUsize (decodeRecordHeader hdrBytes).key_size = key.length
          · rw [if_pos hks] at hok ⊢
            cases hke : readExactS st2 r1 key.length with
            | error e =>
              rw [hke] at hok
              exact absurd hok (by simp)
            | ok kb =>
              obtain ⟨keyBytes, r2, st3⟩ := kb
              rw [hke] at hok
              simp only at hok
              obtain ⟨t3, hket, hobs3⟩ := readExactS_congr hobs2 hke
              rw [hket]
              simp only
              by_cases hkeq : keyBytes = key
              · rw [if_pos hkeq] at hok ⊢
                obtain ⟨h1, h2⟩ := Prod.mk.inj (Except.ok.inj hok)
                rw [← h1, ← h2]
                exact ⟨t3, rfl, hobs3⟩
              · rw [if_neg hkeq] at hok ⊢
                exact ih hobs3 hok
          · rw [if_neg hks] at hok ⊢
            exact ih hobs2 hok

/-- Database::find leaves the state observationally unchanged: its only
effect is filling the cache with clean page loads. -/
theorem dbFindS_pres {st : DbState} {key : List Nat}
    {res : Option (RecordHeader × BlockAddress)} {st' : DbState}
    (h : dbFindS st key = .ok (res, st')) : obsEq st st' := by
  unfold dbFindS at h
  by_cases hinv : st.first_record = BlockAddress.invalid
  · rw [if_pos hinv] at h
    obtain ⟨-, h2⟩ := Prod.mk.inj (Except.ok.inj h)
    rw [← h2]
    exact obsEq_refl st
  · rw [if_neg hinv] at h
    exact findRecordLoop_pres FIND_RECORD_FUEL h

/-- Database::find congruence (ok direction). -/
theorem dbFindS_congr {st t : DbState} {key : List Nat}
    {res : Option (RecordHeader × BlockAddress)} {st' : DbState} (h : obsEq st t)
    (hok : dbFindS st key = .ok (res, st')) :
    ∃ t', dbFindS t key = .ok (res, t') ∧ obsEq st' t' := by
  unfold dbFindS at hok ⊢
  rw [← h.1.2.2.2.1]
  by_cases hinv : st.first_record = BlockAddress.invalid
  · rw [if_pos hinv] at hok ⊢
    obtain ⟨h1, h2⟩ := Prod.mk.inj (Except.ok.inj hok)
    rw [← h1, ← h2]
    exact ⟨t, rfl, h⟩
  · rw [if_neg hinv] at hok ⊢
    exact findRecordLoop_congr FIND_RECORD_FUEL h hok

/-- Database::get congruence (ok direction): get returns the same result on
observationally equal states. -/
theorem dbGetS_congr {st t : DbState} {key : List Nat} {res : Option (List Nat)}
    {st' : DbState} (h : obsEq st t) (hok : dbGetS st key = .ok (res, st')) :
    ∃ t', dbGetS t key = .ok (res, t') ∧ obsEq st' t' := by
  unfold dbGetS at hok ⊢
  cases hf : dbFindS st key with
  | error e =>
    rw [hf] at hok
    exact absurd hok (by simp)
  | ok fr =>
    obtain ⟨fres, st1⟩ := fr
    rw [hf] at hok
    obtain ⟨t1, hft, hobs1⟩ := dbFindS_congr h hf
    rw [hft]
    cases fres with
    | none =>
      simp only at hok ⊢
      obtain ⟨h1, h2⟩ := Prod.mk.inj (Except.ok.inj hok)
      rw [← h1, ← h2]
      exact ⟨t1, rfl, hobs1⟩
    | some ha =>
      obtain ⟨hdr, addr⟩ := ha
      simp only at hok ⊢
      cases hrn : readerNew st1 addr with
      | error e =>
        rw [hrn] at hok
        exact absurd hok (by simp)
      | ok pr =>
        obtain ⟨r, st2⟩ := pr
        rw [hrn] at hok
        simp only at hok
        obtain ⟨t2, hrnt, hobs2⟩ := readerNew_congr hobs1 hrn
        rw [hrnt]
        simp only
        cases hsk : skipS st2 r (RECORD_HEADER_SIZE + i32ToUsize hdr.key_size) with
        | error e =>
          rw [hsk] at hok
          exact absurd hok (by simp)
        | ok sr =>
          obtain ⟨r1, st3⟩ := sr
          rw [hsk] at hok
          simp only at hok
          obtain ⟨t3, hskt, hobs3⟩ :=
            skipLoop_congr (RECORD_HEADER_SIZE + i32ToUsize hdr.key_size + 2) hobs2 hsk
          rw [show skipS t2 r (RECORD_HEADER_SIZE + i32ToUsize hdr.key_size) = .ok (r1, t3)
            from hskt]
          simp only
          cases hre : readExactS st3 r1 (i32ToUsize hdr.data_size) with
          | error e =>
            rw [hre] at hok
            exact absurd hok (by simp)
          | ok rb =>
            obtain ⟨bs, r2, st4⟩ := rb
            rw [hre] at hok
            simp only at hok
            obtain ⟨t4, hret, hobs4⟩ := readExactS_congr hobs3 hre
            rw [hret]
            simp only
            obtain ⟨h1, h2⟩ := Prod.mk.inj (Except.ok.inj hok)
            rw [← h1, ← h2]
            exact ⟨t4, rfl, hobs4⟩

/-- C9: a set on a key that find locates is a no-op: it returns the state
find produced, which is observationally equal to the input state (same file
contents, same headers, same record list; the cache only gains clean page
loads) — no record is appended and the system header is not rewritten — and
a subsequent get returns exactly what it returned before the set. -/
theorem c9_duplicate_set_noop (st : DbState) (key v' : List Nat)
    (x : RecordHeader × BlockAddress) (st₁ : DbState)
    (hf : dbFindS st key = .ok (some x, st₁)) :
    dbSet st key v' = .ok st₁ ∧ obsEq st st₁ ∧
    (∀ res st₂, dbGetS st key = .ok (res, st₂) →
      ∃ st₃, dbGetS st₁ key = .ok (res, st₃)) := by
  have hobs : obsEq st st₁ := dbFindS_pres hf
  refine ⟨?_, hobs, ?_⟩
  · unfold dbSet
    rw [hf]
  · intro res st₂ hget
    obtain ⟨st₃, h3, -⟩ := dbGetS_congr hobs hget
    exact ⟨st₃, h3⟩

/-- The database state after inserting key [97] with value [1, 2, 3] into a
fresh database. -/
def exDb1 : DbState :=
  match dbSet freshDb [97] [1, 2, 3] with
  | .ok st => st
  | .error _ => freshDb

/-- C9 witness: in exDb1 the key [97] is present; find locates it without
touching the cache (page 0 is already cached), and the C9 theorem applied
there shows the duplicate set returns the state unchanged. -/
theorem c9_witness :
    dbFindS exDb1 [97] =
      .ok (some ({ next_record := BlockAddress.invalid, key_size := 1, data_size := 3 },
        BlockAddress.new 0 0), exDb1) ∧
    dbSet exDb1 [97] [9, 9] = .ok exDb1 := by
  have hf : dbFindS exDb1 [97] =
      .ok (some ({ next_record := BlockAddress.invalid, key_size := 1, data_size := 3 },
        BlockAddress.new 0 0), exDb1) := rfl
  exact ⟨hf, (c9_duplicate_set_noop exDb1 [97] [9, 9] _ exDb1 hf).1⟩

/-- Anatomy of a successful copy_block: the bytes are the block view at the
cursor, and the cursor advances by len. -/
theorem copyBlock_ok {st : DbState} {r : PageReaderS} {len : Nat} {bs : List Nat}
    {r' : PageReaderS} (h : copyBlock st r len = .ok (bs, r')) :
    bs = (List.range (if 0 < len then len else BLOCK_SIZE)).map
        (fun j => (pageAt st r.pi).blocks (r.block_index * BLOCK_SIZE + r.block_offset + j)) ∧
    r' = { r with block_offset := r.block_offset + len } ∧
    r.block_index < PAGE_BLOCK_COUNT ∧
    r.block_offset + (if 0 < len then len else BLOCK_SIZE) ≤ BLOCK_SIZE := by
  unfold copyBlock Page.get_block_data at h
  cases hr : Page.get_block_data_range r.block_index r.block_offset len with
  | error e =>
    rw [hr] at h
    exact absurd h (by simp)
  | ok sl =>
    obtain ⟨start, eff⟩ := sl
    rw [hr] at h
    simp only at h
    obtain ⟨hidx, heff, hfit, hstart⟩ := get_block_data_range_ok hr
    obtain ⟨hbs, hr'⟩ := Prod.mk.inj (Except.ok.inj h)
    refine ⟨?_, hr'.symm, hidx, by omega⟩
    rw [← hbs, ← heff, hstart]

/-- copy_block at an exhausted block (offset at or past BLOCK_DATA_SIZE)
never succeeds: the remaining length is zero, the overload widens it to a
whole block, and the range check fails. -/
theorem copyBlock_boundary {st : DbState} {r : PageReaderS}
    (hoff : BLOCK_DATA_SIZE ≤ r.block_offset) {bs : List Nat} {r' : PageReaderS} :
    copyBlock st r (BLOCK_DATA_SIZE - r.block_offset) ≠ .ok (bs, r') := by
  intro h
  obtain ⟨-, -, -, hfit⟩ := copyBlock_ok h
  have e1 : BLOCK_SIZE = 64 := rfl
  have e2 : BLOCK_DATA_SIZE = 56 := rfl
  have h1 : BLOCK_DATA_SIZE - r.block_offset = 0 := by omega
  rw [h1] at hfit
  simp only [Nat.lt_irrefl, if_false] at hfit
  omega

/-- A read never returns more bytes than requested. -/
theorem readLoop_len_le (fuel : Nat) :
    ∀ {st : DbState} {r : PageReaderS} {count : Nat} {bs : List Nat} {r' : PageReaderS}
      {st' : DbState}, readLoop fuel st r count = .ok (bs, r', st') → bs.length ≤ count := by
  induction fuel with
  | zero =>
    intro st r count bs r' st' h
    rw [readLoop] at h
    exact absurd h (by simp)
  | succ n ih =>
    intro st r count bs r' st' h
    rw [readLoop] at h
    by_cases hc0 : count = 0
    · rw [if_pos hc0] at h
      obtain ⟨h1, -⟩ := Prod.mk.inj (Except.ok.inj h)
      rw [← h1]
      simp
    · rw [if_neg hc0] at h
      by_cases hfit : count ≤ BLOCK_DATA_SIZE - r.block_offset
      · rw [if_pos hfit] at h
        cases hcb : copyBlock st r count with
        | error e =>
          rw [hcb] at h
          exact absurd h (by simp)
        | ok br =>
          obtain ⟨bs1, r1⟩ := br
          rw [hcb] at h
          simp only at h
          obtain ⟨h1, -⟩ := Prod.mk.inj (Except.ok.inj h)
          obtain ⟨hview, -, -, -⟩ := copyBlock_ok hcb
          rw [← h1, hview]
          simp only [List.length_map, List.length_range]
          rw [if_pos (by omega)]
      · rw [if_neg hfit] at h
        cases hcb : copyBlock st r (BLOCK_DATA_SIZE - r.block_offset) with
        | error e =>
          rw [hcb] at h
          exact absurd h (by simp)
        | ok br =>
          obtain ⟨bs1, r1⟩ := br
          rw [hcb] at h
          simp only at h
          by_cases hb : BLOCK_DATA_SIZE ≤ r.block_offset
          · exact absurd hcb (copyBlock_boundary hb)
          · have hrem : 0 < BLOCK_DATA_SIZE - r.block_offset := by omega
            obtain ⟨hview, -, -, -⟩ := copyBlock_ok hcb
            have hlen1 : bs1.length = BLOCK_DATA_SIZE - r.block_offset := by
              rw [hview]
              simp only [List.length_map, List.length_range]
              rw [if_pos hrem]
            cases hgn : goToNextBlock st r1 with
            | error e =>
              rw [hgn] at h
              exact absurd h (by simp)
            | ok tr =>
              obtain ⟨flag, r2, st2⟩ := tr
              rw [hgn] at h
              cases flag with
              | false =>
                simp only at h
                obtain ⟨h1, -⟩ := Prod.mk.inj (Except.ok.inj h)
                rw [← h1]
                omega
              | true =>
                simp only at h
                cases hrl : readLoop n st2 r2 (count - (BLOCK_DATA_SIZE - r.block_offset)) with
                | error e =>
                  rw [hrl] at h
                  exact absurd h (by simp)
                | ok br3 =>
                  obtain ⟨bs2, r3, st3⟩ := br3
                  rw [hrl] at h
                  simp only at h
                  obtain ⟨h1, -⟩ := Prod.mk.inj (Except.ok.inj h)
                  have h2 := ih hrl
                  rw [← h1]
                  simp only [List.length_append]
                  omega

/-- Taking from a view of a longer range gives the shorter view. -/
theorem take_range_map {α : Type _} (f : Nat → α) {n m : Nat} (h : n ≤ m) :
    ((List.range m).map f).take n = (List.range n).map f := by
  rw [← List.map_take, List.take_range, Nat.min_eq_left h]

/-- Reading more from the same cursor extends the shorter read: when a read
of n bytes returns all n bytes, a read of m ≥ n bytes from the same state
begins with exactly those n bytes. -/
theorem readLoop_take (fm : Nat) :
    ∀ (fn : Nat) {st : DbState} {r : PageReaderS} {n m : Nat}
      {bsn : List Nat} {rn : PageReaderS} {stn : DbState}
      {bsm : List Nat} {rm : PageReaderS} {stm : DbState},
      n ≤ m →
      readLoop fn st r n = .ok (bsn, rn, stn) → bsn.length = n →
      readLoop fm st r m = .ok (bsm, rm, stm) →
      bsm.take n = bsn ∧ n ≤ bsm.length := by
  induction fm with
  | zero =>
    intro fn st r n m bsn rn stn bsm rm stm hnm hn hfull hm
    rw [readLoop] at hm
    exact absurd hm (by simp)
  | succ l ihm =>
    intro fn st r n m bsn rn stn bsm rm stm hnm hn hfull hm
    cases fn with
    | zero =>
      rw [readLoop] at hn
      exact absurd hn (by simp)
    | succ k =>
      rw [readLoop] at hn hm
      by_cases hn0 : n = 0
      · subst hn0
        rw [if_pos rfl] at hn
        obtain ⟨h1, -⟩ := Prod.mk.inj (Except.ok.inj hn)
        rw [← h1]
        exact ⟨by simp, Nat.zero_le _⟩
      · rw [if_neg hn0] at hn
        have hm0 : ¬ m = 0 := by omega
        rw [if_neg hm0] at hm
        by_cases hfitn : n ≤ BLOCK_DATA_SIZE - r.block_offset
        · rw [if_pos hfitn] at hn
          cases hcbn : copyBlock st r n with
          | error e =>
            rw [hcbn] at hn
            exact absurd hn (by simp)
          | ok brn =>
            obtain ⟨bs1n, r1n⟩ := brn
            rw [hcbn] at hn
            simp only at hn
            obtain ⟨h1n, -⟩ := Prod.mk.inj (Except.ok.inj hn)
            obtain ⟨hviewn, -, -, -⟩ := copyBlock_ok hcbn
            by_cases hfitm : m ≤ BLOCK_DATA_SIZE - r.block_offset
            · rw [if_pos hfitm] at hm
              cases hcbm : copyBlock st r m with
              | error e =>
                rw [hcbm] at hm
                exact absurd hm (by simp)
              | ok brm =>
                obtain ⟨bs1m, r1m⟩ := brm
                rw [hcbm] at hm
                simp only at hm
                obtain ⟨h1m, -⟩ := Prod.mk.inj (Except.ok.inj hm)
                obtain ⟨hviewm, -, -, -⟩ := copyBlock_ok hcbm
                rw [← h1m, ← h1n, hviewm, hviewn,
                  if_pos (by omega : 0 < n), if_pos (by omega : 0 < m)]
                constructor
                · exact take_range_map _ hnm
                · simp only [List.length_map, List.length_range]
                  exact hnm
            · rw [if_neg hfitm] at hm
              cases hcbm : copyBlock st r (BLOCK_DATA_SIZE - r.block_offset) with
              | error e =>
                rw [hcbm] at hm
                exact absurd hm (by simp)
              | ok brm =>
                obtain ⟨bs1m, r1m⟩ := brm
                rw [hcbm] at hm
                simp only at hm
                obtain ⟨hviewm, -, -, -⟩ := copyBlock_ok hcbm
                have hrem_pos : 0 < BLOCK_DATA_SIZE - r.block_offset := by omega
                have hlen1m : bs1m.length = BLOCK_DATA_SIZE - r.block_offset := by
                  rw [hviewm]
                  simp only [List.length_map, List.length_range]
                  rw [if_pos hrem_pos]
                have htaken : bs1m.take n = bsn := by
                  rw [← h1n, hviewm, hviewn, if_pos hrem_pos, if_pos (by omega : 0 < n)]
                  exact take_range_map _ hfitn
                cases hgn : goToNextBlock st r1m with
                | error e =>
                  rw [hgn] at hm
                  exact absurd hm (by simp)
                | ok tr =>
                  obtain ⟨flag, r2, st2⟩ := tr
                  rw [hgn] at hm
                  cases flag with
                  | false =>
                    simp only at hm
                    obtain ⟨h1m, -⟩ := Prod.mk.inj (Except.ok.inj hm)
                    rw [← h1m]
                    exact ⟨htaken, by omega⟩
                  | true =>
                    simp only at hm
                    cases hrl : readLoop l st2 r2 (m - (BLOCK_DATA_SIZE - r.block_offset)) with
                    | error e =>
                      rw [hrl] at hm
                      exact absurd hm (by simp)
                    | ok br3 =>
                      obtain ⟨bs2, r3, st3⟩ := br3
                      rw [hrl] at hm
                      simp only at hm
                      obtain ⟨h1m, -⟩ := Prod.mk.inj (Except.ok.inj hm)
                      rw [← h1m]
                      constructor
                      · rw [List.take_append_of_le_length (by omega)]
                        exact htaken
                      · simp only [List.length_append]
                        omega
        · rw [if_neg hfitn] at hn
          have hfitm : ¬ m ≤ BLOCK_DATA_SIZE - r.block_offset := by omega
          rw [if_neg hfitm] at hm
          cases hcb : copyBlock st r (BLOCK_DATA_SIZE - r.block_offset) with
          | error e =>
            rw [hcb] at hn
            exact absurd hn (by simp)
          | ok br =>
            obtain ⟨bs1, r1⟩ := br
            rw [hcb] at hn hm
            simp only at hn hm
            by_cases hbound : BLOCK_DATA_SIZE ≤ r.block_offset
            · exact absurd hcb (copyBlock_boundary hbound)
            · have hrem_pos : 0 < BLOCK_DATA_SIZE - r.block_offset := by omega
              obtain ⟨hview, -, -, -⟩ := copyBlock_ok hcb
              have hlen1 : bs1.length = BLOCK_DATA_SIZE - r.block_offset := by
                rw [hview]
                simp only [List.length_map, List.length_range]
                rw [if_pos hrem_pos]
              cases hgn : goToNextBlock st r1 with
              | error e =>
                rw [hgn] at hn
                exact absurd hn (by simp)
              | ok tr =>
                obtain ⟨flag, r2, st2⟩ := tr
                rw [hgn] at hn hm
                cases flag with
                | false =>
                  simp only at hn
                  obtain ⟨h1n, -⟩ := Prod.mk.inj (Except.ok.inj hn)
                  rw [← h1n] at hfull
                  omega
                | true =>
                  simp only at hn hm
                  cases hrln : readLoop k st2 r2 (n - (BLOCK_DATA_SIZE - r.block_offset)) with
                  | error e =>
                    rw [hrln] at hn
                    exact absurd hn (by simp)
                  | ok brn2 =>
                    obtain ⟨bs2n, r3n, st3n⟩ := brn2
                    rw [hrln] at hn
                    simp only at hn
                    obtain ⟨h1n, -⟩ := Prod.mk.inj (Except.ok.inj hn)
                    cases hrlm : readLoop l st2 r2 (m - (BLOCK_DATA_SIZE - r.block_offset)) with
                    | error e =>
                      rw [hrlm] at hm
                      exact absurd hm (by simp)
                    | ok brm2 =>
                      obtain ⟨bs2m, r3m, st3m⟩ := brm2
                      rw [hrlm] at hm
                      simp only at hm
                      obtain ⟨h1m, -⟩ := Prod.mk.inj (Except.ok.inj hm)
                      have hfull2 : bs2n.length = n - (BLOCK_DATA_SIZE - r.block_offset) := by
                        rw [← h1n] at hfull
                        simp only [List.length_append] at hfull
                        omega
                      obtain ⟨htake2, hlen2⟩ := ihm k (by omega) hrln hfull2 hrlm
                      rw [← h1m, ← h1n]
                      constructor
                      · rw [List.take_append_eq_append_take,
                          List.take_of_length_le (by omega), hlen1, htake2]
                      · simp only [List.length_append]
                        omega

/-- A record whose 16-byte header plus 40-byte key exactly fill one block's
payload, with an empty value. -/
def recHeaderKey40 : List Nat :=
  encodeRecordHeader { next_record := BlockAddress.invalid, key_size := 40, data_size := 0 } ++
  List.replicate 40 65

/-- A page holding that one-block record chain at block 0. -/
def keyBlockPage : Page where
  first_free_block := 1
  block_states := fun j => if j = 0 then 1 else 0
  blocks := fun j =>
    if j < 56 then recHeaderKey40.getD j 0
    else if j < 64 then (encodeAddr BlockAddress.invalid).getD (j - 56) 0
    else 0

/-- A state whose record list holds exactly that record. -/
def exC10St : DbState where
  cached := fun j => if j = 0 then some keyBlockPage else none
  fileLen := HEADER_OFFSET
  fileByte := fun _ => 0
  first_page_with_free_blocks := 0
  first_record := BlockAddress.new 0 0
  last_record := BlockAddress.new 0 0

/-- C10 counterexample: a key whose record stores a 0-byte value with the
header and key ending exactly at a block boundary: get succeeds (returning
the empty value), the buffer [0] satisfies buffer.len() ≥ data_size = 0, yet
get_to_buffer PANICS (RangeOverflow through the zero-length overload)
instead of returning true as the claim states. -/
theorem c10_counterexample :
    dbGetS exC10St (List.replicate 40 65) = .ok (some [], exC10St) ∧
    dbGetToBufferS exC10St (List.replicate 40 65) [0] = .error .RangeOverflow :=
  ⟨rfl, rfl⟩

/-- C10 (amended): whenever get_to_buffer returns at all for a key whose
stored value get reports as v, it returns true, the output buffer keeps the
caller's length, its first v.length bytes are exactly v, and the whole
output is a single chain read of the full buffer length followed by the
untouched tail of the caller's buffer — so chain payload past the stored
value is copied over the buffer.  (The call can panic instead of returning:
the buffer-length precheck throws, and the full-length read can trip the
block-boundary overload — see the counterexample — or run off a corrupted
chain.) -/
theorem c10_get_to_buffer (st : DbState) (key buffer v : List Nat) (stG : DbState)
    (flag : Bool) (outBuf : List Nat) (st₂ : DbState)
    (hg : dbGetS st key = .ok (some v, stG))
    (hcall : dbGetToBufferS st key buffer = .ok (flag, outBuf, st₂)) :
    flag = true ∧ outBuf.length = buffer.length ∧ outBuf.take v.length = v ∧
    ∃ bs : List Nat, v.length ≤ bs.length ∧ bs.length ≤ buffer.length ∧
      outBuf = bs ++ buffer.drop bs.length := by
  unfold dbGetS at hg
  unfold dbGetToBufferS at hcall
  cases hf : dbFindS st key with
  | error e =>
    rw [hf] at hg
    exact absurd hg (by simp)
  | ok fr =>
    obtain ⟨fres, st1⟩ := fr
    rw [hf] at hg hcall
    cases fres with
    | none =>
      simp only at hg
      exact absurd (Prod.mk.inj (Except.ok.inj hg)).1 (by simp)
    | some ha =>
      obtain ⟨hdr, addr⟩ := ha
      simp only at hg hcall
      cases hrn : readerNew st1 addr with
      | error e =>
        rw [hrn] at hg
        exact absurd hg (by simp)
      | ok pr =>
        obtain ⟨r, st2x⟩ := pr
        rw [hrn] at hg hcall
        simp only at hg hcall
        cases hsk : skipS st2x r (RECORD_HEADER_SIZE + i32ToUsize hdr.key_size) with
        | error e =>
          rw [hsk] at hg
          exact absurd hg (by simp)
        | ok sr =>
          obtain ⟨r1, st3⟩ := sr
          rw [hsk] at hg hcall
          simp only at hg hcall
          cases hre : readExactS st3 r1 (i32ToUsize hdr.data_size) with
          | error e =>
            rw [hre] at hg
            exact absurd hg (by simp)
          | ok rb =>
            obtain ⟨bs0, r2, st4⟩ := rb
            rw [hre] at hg
            simp only at hg
            obtain ⟨ho, -⟩ := Prod.mk.inj (Except.ok.inj hg)
            have hbs0 : bs0 = v := Option.some.inj ho
            subst hbs0
            unfold readExactS at hre
            cases hrd : readS st3 r1 (i32ToUsize hdr.data_size) with
            | error e =>
              rw [hrd] at hre
              exact absurd hre (by simp)
            | ok rb2 =>
              obtain ⟨bsd, rd, std⟩ := rb2
              rw [hrd] at hre
              simp only at hre
              by_cases hlen : bsd.length = i32ToUsize hdr.data_size
              · rw [if_pos hlen] at hre
                obtain ⟨hb1, -⟩ := Prod.mk.inj (Except.ok.inj hre)
                by_cases hshort : buffer.length < i32ToUsize hdr.data_size
                · rw [if_pos hshort] at hcall
                  exact absurd hcall (by simp)
                · rw [if_neg hshort] at hcall
                  cases hrb : readS st3 r1 buffer.length with
                  | error e =>
                    rw [hrb] at hcall
                    exact absurd hcall (by simp)
                  | ok rb3 =>
                    obtain ⟨bs, r3, st5⟩ := rb3
                    rw [hrb] at hcall
                    simp only at hcall
                    obtain ⟨hflag, h2c⟩ := Prod.mk.inj (Except.ok.inj hcall)
                    obtain ⟨hout, -⟩ := Prod.mk.inj h2c
                    obtain ⟨htake, hle⟩ := readLoop_take (buffer.length + 1)
                      (i32ToUsize hdr.data_size + 1) (by omega) hrd hlen hrb
                    have hbslen : bs.length ≤ buffer.length :=
                      readLoop_len_le (buffer.length + 1) hrb
                    have hvlen : bs0.length = i32ToUsize hdr.data_size := by
                      rw [← hb1]
                      exact hlen
                    refine ⟨hflag.symm, ?_, ?_, bs, by omega, hbslen, hout.symm⟩
                    · rw [← hout]
                      simp only [List.length_append, List.length_drop]
                      omega
                    · rw [← hout, hvlen,
                        List.take_append_of_le_length (by omega), htake, hb1]
              · rw [if_neg hlen] at hre
                exact absurd hre (by simp)

/-- C10 witness: in exDb1 (key [97] storing [1, 2, 3]) with the 5-byte
buffer [7, 7, 7, 7, 7], get_to_buffer returns true with output
[1, 2, 3, 0, 0]: the value as prefix, and the two bytes after it OVERWRITTEN
by the chain's padding bytes (the 7s are gone); the amended theorem's
conclusions are discharged at this instance. -/
theorem c10_witness :
    dbGetToBufferS exDb1 [97] [7, 7, 7, 7, 7] = .ok (true, [1, 2, 3, 0, 0], exDb1) ∧
    (true = true ∧ ([1, 2, 3, 0, 0] : List Nat).length = ([7, 7, 7, 7, 7] : List Nat).length ∧
      ([1, 2, 3, 0, 0] : List Nat).take ([1, 2, 3] : List Nat).length = [1, 2, 3] ∧
      ∃ bs : List Nat, ([1, 2, 3] : List Nat).length ≤ bs.length ∧
        bs.length ≤ ([7, 7, 7, 7, 7] : List Nat).length ∧
        ([1, 2, 3, 0, 0] : List Nat) = bs ++ ([7, 7, 7, 7, 7] : List Nat).drop bs.length) := by
  have hg : dbGetS exDb1 [97] = .ok (some [1, 2, 3], exDb1) := rfl
  have hcall : dbGetToBufferS exDb1 [97] [7, 7, 7, 7, 7] =
      .ok (true, [1, 2, 3, 0, 0], exDb1) := rfl
  exact ⟨hcall, c10_get_to_buffer exDb1 [97] [7, 7, 7, 7, 7] [1, 2, 3] exDb1
    true [1, 2, 3, 0, 0] exDb1 hg hcall⟩
